import Mathlib

/-!
Verification of the binary-format assembly layer of the `iamawrapper`
packager: the AES-CBC+HMAC framing (`src/packager/encrypt.rs`), the
Detection.xml emitter and parser (`src/packager/metadata.rs`,
`src/models/detection.rs`), the error-to-exit-code mapping
(`src/models/error.rs`), the XAR writer (`src/macos/xar.rs`), the BOM
writer (`src/macos/bom.rs`) and the CPIO payload writer
(`src/macos/cpio.rs`).

Bytes are modelled as `Nat` (values < 256 where that matters) and byte
strings as `List Nat`.  Primitives supplied by external crates — the
AES-256 block permutation, HMAC-SHA256, SHA-256, base64, DEFLATE — are
not part of this repository; they enter the development as explicit
function parameters constrained exactly by the contracts those
libraries guarantee (a block cipher decrypts what it encrypts,
HMAC-SHA256 returns 32 bytes, inflate inverts deflate, base64 decode
inverts encode).  Everything this repository's own code computes is
embedded concretely.
-/

namespace Wrapper

/-! ### Byte-level utilities (`u32::to_be_bytes` and friends) -/

/-- Big-endian serialization of a `u32` (`val.to_be_bytes()` in Rust);
values ≥ 2^32 are truncated exactly as the Rust `u32` they would be. -/
def be32 (n : Nat) : List Nat :=
  [n / 2 ^ 24 % 256, n / 2 ^ 16 % 256, n / 2 ^ 8 % 256, n % 256]

/-- Big-endian serialization of a `u16`. -/
def be16 (n : Nat) : List Nat :=
  [n / 2 ^ 8 % 256, n % 256]

/-- Read a big-endian `u32` at byte offset `off` of a byte string. -/
def readU32 (bs : List Nat) (off : Nat) : Nat :=
  ((bs.drop off).take 4).foldl (fun a b => a * 256 + b) 0

/-- Read a big-endian `u16` at byte offset `off` of a byte string. -/
def readU16 (bs : List Nat) (off : Nat) : Nat :=
  ((bs.drop off).take 2).foldl (fun a b => a * 256 + b) 0

theorem be32_length (n : Nat) : (be32 n).length = 4 := rfl

theorem be16_length (n : Nat) : (be16 n).length = 2 := rfl

theorem readU32_be32 (n : Nat) (r : List Nat) (h : n < 2 ^ 32) :
    readU32 (be32 n ++ r) 0 = n := by
  simp only [readU32, be32, List.drop_zero, List.cons_append, List.take_succ_cons,
    List.take_zero, List.foldl_cons, List.foldl_nil]
  omega

theorem readU16_be16 (n : Nat) (r : List Nat) (h : n < 2 ^ 16) :
    readU16 (be16 n ++ r) 0 = n := by
  simp only [readU16, be16, List.drop_zero, List.cons_append, List.take_succ_cons,
    List.take_zero, List.foldl_cons, List.foldl_nil]
  omega

theorem readU32_append (pre bs : List Nat) (off : Nat) :
    readU32 (pre ++ bs) (pre.length + off) = readU32 bs off := by
  simp [readU32, List.drop_append]

/-! ### The authenticated-encryption layer (`src/packager/encrypt.rs`)

The `aes`/`cbc`/`hmac`/`sha2` crates supply the primitives; the
repository's own code chooses CBC chaining with a fresh IV, computes
the PKCS#7 padding amount, frames the output as `HMAC ‖ IV ‖
ciphertext` and checks the frame on decryption.  The AES-256 block
permutation appears below as a parameter `E` (and its inverse `D`),
HMAC-SHA256 as a parameter `hmac`, SHA-256 as `sha256`. -/

/-- PKCS#7 padding to the 16-byte block boundary, exactly as
`aes_encrypt` computes it: `padding = 16 - len % 16` bytes (always
between 1 and 16), each holding the value `padding`. -/
def pkcs7Pad (p : List Nat) : List Nat :=
  p ++ List.replicate (16 - p.length % 16) (16 - p.length % 16)

/-- PKCS#7 unpadding as performed by `decrypt_padded_mut::<Pkcs7>`:
read the final byte `n`, require `1 ≤ n ≤ 16`, `n` no longer than the
buffer, and the last `n` bytes all equal to `n`; strip them. -/
def pkcs7Unpad (b : List Nat) : Option (List Nat) :=
  match b.getLast? with
  | none => none
  | some n =>
    if n = 0 ∨ 16 < n ∨ b.length < n then none
    else if (b.drop (b.length - n)).all (· = n) then some (b.take (b.length - n))
    else none

/-- Split a byte string into 16-byte blocks (fuel-indexed so that the
definition is structural; `chunks16` instantiates the fuel). -/
def chunksAux : Nat → List Nat → List (List Nat)
  | 0, _ => []
  | _, [] => []
  | fuel + 1, x :: xs => ((x :: xs).take 16) :: chunksAux fuel ((x :: xs).drop 16)

/-- Split a byte string into 16-byte blocks. -/
def chunks16 (xs : List Nat) : List (List Nat) :=
  chunksAux xs.length xs

/-- Byte-wise XOR of two equal-length byte strings. -/
def listXor (a b : List Nat) : List Nat :=
  List.zipWith Nat.xor a b

/-- CBC encryption over a block sequence: each block is XORed with the
previous ciphertext block (initially the IV) and passed through the
block permutation. -/
def cbcEnc (E : List Nat → List Nat) : List Nat → List (List Nat) → List (List Nat)
  | _, [] => []
  | prev, b :: bs =>
    let c := E (listXor b prev)
    c :: cbcEnc E c bs

/-- CBC decryption over a block sequence. -/
def cbcDec (D : List Nat → List Nat) : List Nat → List (List Nat) → List (List Nat)
  | _, [] => []
  | prev, c :: cs => listXor (D c) prev :: cbcDec D c cs

/-! ### Supporting lemmas for the block layer -/

theorem chunksAux_step (f : Nat) (xs : List Nat) (h0 : xs ≠ []) :
    chunksAux (f + 1) xs = xs.take 16 :: chunksAux f (xs.drop 16) := by
  cases xs with
  | nil => exact absurd rfl h0
  | cons x t => rfl

theorem chunksAux_congr :
    ∀ f₁ f₂ (xs : List Nat), xs.length ≤ f₁ → xs.length ≤ f₂ →
      chunksAux f₁ xs = chunksAux f₂ xs := by
  intro f₁
  induction f₁ with
  | zero =>
    intro f₂ xs h₁ _
    have : xs = [] := List.eq_nil_of_length_eq_zero (Nat.le_zero.mp h₁)
    subst this
    cases f₂ <;> rfl
  | succ f₁ ih =>
    intro f₂ xs h₁ h₂
    cases xs with
    | nil => cases f₂ <;> rfl
    | cons x t =>
      cases f₂ with
      | zero => simp at h₂
      | succ g =>
        rw [chunksAux_step f₁ _ (by simp), chunksAux_step g _ (by simp)]
        have hlen : ((x :: t).drop 16).length ≤ f₁ := by
          simp only [List.length_drop, List.length_cons] at *
          omega
        have hlen' : ((x :: t).drop 16).length ≤ g := by
          simp only [List.length_drop, List.length_cons] at *
          omega
        rw [ih g _ hlen hlen']

theorem chunks16_eq_chunksAux (f : Nat) (xs : List Nat) (h : xs.length ≤ f) :
    chunks16 xs = chunksAux f xs :=
  chunksAux_congr xs.length f xs le_rfl h

theorem join_chunksAux :
    ∀ f (xs : List Nat), xs.length ≤ f → (chunksAux f xs).flatten = xs := by
  intro f
  induction f with
  | zero =>
    intro xs h
    have : xs = [] := List.eq_nil_of_length_eq_zero (Nat.le_zero.mp h)
    subst this; rfl
  | succ f ih =>
    intro xs h
    cases xs with
    | nil => rfl
    | cons x t =>
      rw [chunksAux_step f _ (by simp), List.flatten_cons]
      rw [ih _ (by simp only [List.length_drop, List.length_cons] at *; omega)]
      exact List.take_append_drop 16 (x :: t)

theorem join_chunks16 (xs : List Nat) : (chunks16 xs).flatten = xs :=
  join_chunksAux xs.length xs le_rfl

theorem chunksAux_all16 :
    ∀ f (xs : List Nat), xs.length ≤ f → xs.length % 16 = 0 →
      ∀ b ∈ chunksAux f xs, b.length = 16 := by
  intro f
  induction f with
  | zero =>
    intro xs h _ b hb
    have : xs = [] := List.eq_nil_of_length_eq_zero (Nat.le_zero.mp h)
    subst this; simp [chunksAux] at hb
  | succ f ih =>
    intro xs h hm b hb
    cases xs with
    | nil => simp [chunksAux] at hb
    | cons x t =>
      rw [chunksAux_step f _ (by simp)] at hb
      have hge : 16 ≤ (x :: t).length := by
        simp only [List.length_cons] at *
        omega
      rcases List.mem_cons.mp hb with h1 | h2
      · subst h1
        simp only [List.length_take]
        omega
      · exact ih _ (by simp only [List.length_drop, List.length_cons] at *; omega)
          (by simp only [List.length_drop, List.length_cons] at *; omega) b h2

theorem chunks16_all16 (xs : List Nat) (hm : xs.length % 16 = 0) :
    ∀ b ∈ chunks16 xs, b.length = 16 :=
  chunksAux_all16 xs.length xs le_rfl hm

theorem chunksAux_count :
    ∀ f (xs : List Nat), xs.length ≤ f → xs.length % 16 = 0 →
      (chunksAux f xs).length = xs.length / 16 := by
  intro f
  induction f with
  | zero =>
    intro xs h _
    have : xs = [] := List.eq_nil_of_length_eq_zero (Nat.le_zero.mp h)
    subst this; rfl
  | succ f ih =>
    intro xs h hm
    cases xs with
    | nil => rfl
    | cons x t =>
      rw [chunksAux_step f _ (by simp)]
      have := ih ((x :: t).drop 16)
        (by simp only [List.length_drop, List.length_cons] at *; omega)
        (by simp only [List.length_drop, List.length_cons] at *; omega)
      simp only [List.length_cons, List.length_drop] at *
      omega

theorem chunks16_join :
    ∀ bs : List (List Nat), (∀ b ∈ bs, b.length = 16) → chunks16 bs.flatten = bs := by
  intro bs
  induction bs with
  | nil => intro _; rfl
  | cons b bs ih =>
    intro h
    have hb : b.length = 16 := h b (List.mem_cons_self _ _)
    have hlen : (b ++ bs.flatten).length = (15 + bs.flatten.length) + 1 := by
      simp [hb]; omega
    rw [List.flatten_cons, chunks16, hlen, chunksAux_step _ _ (by
      intro hnil
      have := congrArg List.length hnil
      simp [hb] at this)]
    rw [List.take_left' hb, List.drop_left' hb,
      chunksAux_congr _ bs.flatten.length _ (by omega) le_rfl]
    exact congrArg (b :: ·) (ih fun c hc => h c (List.mem_cons_of_mem _ hc))

theorem listXor_length (a b : List Nat) :
    (listXor a b).length = min a.length b.length :=
  List.length_zipWith ..

theorem listXor_cancel :
    ∀ a b : List Nat, a.length = b.length → listXor (listXor a b) b = a := by
  intro a
  induction a with
  | nil => intro b _; rfl
  | cons x xs ih =>
    intro b h
    cases b with
    | nil => simp at h
    | cons y ys =>
      show (x ^^^ y ^^^ y) :: listXor (listXor xs ys) ys = x :: xs
      rw [Nat.xor_cancel_right, ih ys (by simpa using h)]

theorem cbcEnc_count (E : List Nat → List Nat) :
    ∀ (bs : List (List Nat)) (prev : List Nat),
      (cbcEnc E prev bs).length = bs.length := by
  intro bs
  induction bs with
  | nil => intro _; rfl
  | cons b bs ih => intro prev; simp [cbcEnc, ih]

theorem cbcEnc_length16 (E : List Nat → List Nat)
    (hE : ∀ b : List Nat, b.length = 16 → (E b).length = 16) :
    ∀ (bs : List (List Nat)) (prev : List Nat), prev.length = 16 →
      (∀ b ∈ bs, b.length = 16) → ∀ c ∈ cbcEnc E prev bs, c.length = 16 := by
  intro bs
  induction bs with
  | nil => intro prev _ _ c hc; simp [cbcEnc] at hc
  | cons b bs ih =>
    intro prev hprev hall c hc
    have hx : (listXor b prev).length = 16 := by
      rw [listXor_length, hall b (List.mem_cons_self _ _), hprev]
      exact Nat.min_self 16
    rcases List.mem_cons.mp hc with h1 | h2
    · subst h1; exact hE _ hx
    · exact ih (E (listXor b prev)) (hE _ hx)
        (fun d hd => hall d (List.mem_cons_of_mem _ hd)) c h2

theorem cbcDec_cbcEnc (E D : List Nat → List Nat)
    (hE : ∀ b : List Nat, b.length = 16 → (E b).length = 16)
    (hD : ∀ b : List Nat, b.length = 16 → D (E b) = b) :
    ∀ (bs : List (List Nat)) (prev : List Nat), prev.length = 16 →
      (∀ b ∈ bs, b.length = 16) →
      cbcDec D prev (cbcEnc E prev bs) = bs := by
  intro bs
  induction bs with
  | nil => intro _ _ _; rfl
  | cons b bs ih =>
    intro prev hprev hall
    have hb : b.length = 16 := hall b (List.mem_cons_self _ _)
    have hx : (listXor b prev).length = 16 := by
      rw [listXor_length, hb, hprev]
      exact Nat.min_self 16
    show listXor (D (E (listXor b prev))) prev ::
        cbcDec D (E (listXor b prev)) (cbcEnc E (E (listXor b prev)) bs) = b :: bs
    rw [hD _ hx, listXor_cancel b prev (hb.trans hprev.symm),
      ih (E (listXor b prev)) (hE _ hx)
        (fun d hd => hall d (List.mem_cons_of_mem _ hd))]

theorem pkcs7Pad_length (p : List Nat) :
    (pkcs7Pad p).length = 16 * (p.length / 16 + 1) := by
  simp only [pkcs7Pad, List.length_append, List.length_replicate]
  omega

theorem pkcs7Pad_mod (p : List Nat) : (pkcs7Pad p).length % 16 = 0 := by
  rw [pkcs7Pad_length]; omega

theorem pkcs7Unpad_pad (p : List Nat) : pkcs7Unpad (pkcs7Pad p) = some p := by
  have hrep : List.replicate (16 - p.length % 16) (16 - p.length % 16) ≠ [] := by
    intro h
    have := congrArg List.length h
    simp only [List.length_replicate, List.length_nil] at this
    omega
  have hlast : (pkcs7Pad p).getLast? = some (16 - p.length % 16) := by
    rw [pkcs7Pad, List.getLast?_append_of_ne_nil _ hrep, List.getLast?_replicate,
      if_neg (by omega)]
  have hlen : (pkcs7Pad p).length = p.length + (16 - p.length % 16) := by
    simp [pkcs7Pad]
  simp only [pkcs7Unpad, hlast]
  rw [if_neg (by rw [hlen]; omega)]
  have hsub : (pkcs7Pad p).length - (16 - p.length % 16) = p.length := by
    rw [hlen]; omega
  rw [hsub, pkcs7Pad, List.drop_left, List.take_left,
    if_pos (by rw [List.all_replicate]; split <;> simp)]

/-! ### Error taxonomy and exit codes (`src/models/error.rs`) -/

/-- The `PackageError` enum; `PathBuf` payloads become `String`. -/
inductive PackageError where
  | SourceFolderNotFound (path : String)
  | SourceFolderEmpty (path : String)
  | SetupFileNotFound (file folder : String)
  | OutputFolderCreationFailed (path reason : String)
  | OutputFileExists (path : String)
  | SourceReadError (path reason : String)
  | EncryptionError (reason : String)
  | OutputWriteError (path reason : String)
  | ZipError (reason : String)
  | XmlError (reason : String)
  | InvalidArgument (reason : String)
  | Cancelled
  | InvalidIntunewinFile (path reason : String)
  | DecryptionError (reason : String)
  | HmacVerificationFailed
  | InvalidPadding
  | ScriptsFolderNotFound (path : String)
  | NoScriptsFound (path : String)
  | XarError (reason : String)
  | CpioError (reason : String)
  | BomError (reason : String)
  | IoError (reason : String)
deriving DecidableEq

-- The `exit_codes` constant module.
namespace exit_codes

def SUCCESS : Int := 0

def ERROR : Int := 1

def INVALID_ARGS : Int := 2

def EMPTY_SOURCE : Int := 3

def SETUP_NOT_FOUND : Int := 4

def OUTPUT_ERROR : Int := 5

def SCRIPTS_NOT_FOUND : Int := 6

def CANCELLED : Int := 7

end exit_codes

/-- `PackageError::exit_code`, arm for arm. -/
def PackageError.exit_code : PackageError → Int
  | .SourceFolderNotFound _ => exit_codes.ERROR
  | .SourceFolderEmpty _ => exit_codes.EMPTY_SOURCE
  | .SetupFileNotFound _ _ => exit_codes.SETUP_NOT_FOUND
  | .OutputFolderCreationFailed _ _ => exit_codes.OUTPUT_ERROR
  | .OutputFileExists _ => exit_codes.ERROR
  | .SourceReadError _ _ => exit_codes.ERROR
  | .EncryptionError _ => exit_codes.ERROR
  | .OutputWriteError _ _ => exit_codes.OUTPUT_ERROR
  | .ZipError _ => exit_codes.ERROR
  | .XmlError _ => exit_codes.ERROR
  | .InvalidArgument _ => exit_codes.INVALID_ARGS
  | .Cancelled => exit_codes.ERROR
  | .InvalidIntunewinFile _ _ => exit_codes.ERROR
  | .DecryptionError _ => exit_codes.ERROR
  | .HmacVerificationFailed => exit_codes.ERROR
  | .InvalidPadding => exit_codes.ERROR
  | .ScriptsFolderNotFound _ => exit_codes.SCRIPTS_NOT_FOUND
  | .NoScriptsFound _ => exit_codes.ERROR
  | .XarError _ => exit_codes.ERROR
  | .CpioError _ => exit_codes.ERROR
  | .BomError _ => exit_codes.ERROR
  | .IoError _ => exit_codes.ERROR

/-! ### `EncryptionInfo` (`src/models/detection.rs`) and
`encrypt_content` / `decrypt_content` (`src/packager/encrypt.rs`).

`generate_keys` fills the key material from the OS RNG; the key
material is therefore universally quantified below, and
`encrypt_content` receives it as arguments. -/

/-- `EncryptionInfo` with its two string fields as character lists (the
XML layer works character-wise). -/
structure EncryptionInfo where
  encryption_key : List Nat
  mac_key : List Nat
  iv : List Nat
  mac : List Nat
  file_digest : List Nat
  profile_identifier : List Char
  file_digest_algorithm : List Char
deriving DecidableEq

/-- `EncryptionInfo::new()` / `default()`: zeroed secrets and the two
fixed literals. -/
def EncryptionInfo.new : EncryptionInfo :=
  { encryption_key := List.replicate 32 0
    mac_key := List.replicate 32 0
    iv := List.replicate 16 0
    mac := List.replicate 32 0
    file_digest := List.replicate 32 0
    profile_identifier := "ProfileVersion1".toList
    file_digest_algorithm := "SHA256".toList }

/-- `aes_encrypt`: PKCS#7-pad, then AES-256-CBC with block permutation
`E key`.  (The Rust code zero-fills a buffer of the padded length and
lets `encrypt_padded_mut::<Pkcs7>` overwrite the tail with the padding
bytes; the result is CBC over the PKCS#7-padded plaintext.) -/
def aes_encrypt (E : List Nat → List Nat → List Nat) (p key iv : List Nat) : List Nat :=
  (cbcEnc (E key) iv (chunks16 (pkcs7Pad p))).flatten

/-- `aes_decrypt`: reject an empty ciphertext or one that is not a
multiple of 16 bytes, CBC-decrypt with `D key`, strip PKCS#7 padding. -/
def aes_decrypt (D : List Nat → List Nat → List Nat) (ciphertext key iv : List Nat) :
    Except PackageError (List Nat) :=
  if ciphertext.length = 0 ∨ ciphertext.length % 16 ≠ 0 then
    .error (.DecryptionError "Invalid ciphertext length (must be multiple of 16)")
  else
    match pkcs7Unpad ((cbcDec (D key) iv (chunks16 ciphertext)).flatten) with
    | some p => .ok p
    | none => .error .InvalidPadding

/-- `encrypt_content`, with the freshly drawn key material (`generate_keys`)
passed in and the external primitives as parameters.  Returns the framed
blob `HMAC(32) ‖ IV(16) ‖ ciphertext` and the populated `EncryptionInfo`. -/
def encrypt_content (E hmac : List Nat → List Nat → List Nat)
    (sha256 : List Nat → List Nat)
    (key mac_key iv plaintext : List Nat) : List Nat × EncryptionInfo :=
  let ciphertext := aes_encrypt E plaintext key iv
  let mac := hmac mac_key (iv ++ ciphertext)
  (mac ++ iv ++ ciphertext,
    { encryption_key := key
      mac_key := mac_key
      iv := iv
      mac := mac
      file_digest := sha256 plaintext
      profile_identifier := "ProfileVersion1".toList
      file_digest_algorithm := "SHA256".toList })

/-- `constant_time_compare`: length check, then an OR-accumulated XOR of
the zipped byte pairs. -/
def constant_time_compare (a b : List Nat) : Bool :=
  if a.length ≠ b.length then false
  else ((a.zip b).foldl (fun r xy => r ||| (xy.1 ^^^ xy.2)) 0) == 0

/-- `decrypt_content`: length gate, split `HMAC ‖ IV ‖ ciphertext`,
recompute the HMAC over `IV ‖ ciphertext`, constant-time compare, then
AES-decrypt. -/
def decrypt_content (D hmac : List Nat → List Nat → List Nat)
    (encrypted_data : List Nat) (encryption_info : EncryptionInfo) :
    Except PackageError (List Nat) :=
  if encrypted_data.length < 64 then
    .error (.DecryptionError "Encrypted data too short")
  else
    let stored_hmac := encrypted_data.take 32
    let iv := (encrypted_data.drop 32).take 16
    let ciphertext := encrypted_data.drop 48
    let computed_hmac := hmac encryption_info.mac_key (iv ++ ciphertext)
    if ¬ constant_time_compare computed_hmac stored_hmac then
      .error .HmacVerificationFailed
    else
      aes_decrypt D ciphertext encryption_info.encryption_key iv

/-! ### Lemmas about `constant_time_compare` and the frame anatomy -/

theorem nat_or_eq_zero {a b : Nat} (h : a ||| b = 0) : a = 0 ∧ b = 0 := by
  refine ⟨Nat.eq_of_testBit_eq fun i => ?_, Nat.eq_of_testBit_eq fun i => ?_⟩ <;>
    · have := congrArg (Nat.testBit · i) h
      simp [Nat.testBit_or] at this ⊢
      tauto

theorem ctcFold_eq_zero :
    ∀ (l : List (Nat × Nat)) (acc : Nat),
      (l.foldl (fun r xy => r ||| (xy.1 ^^^ xy.2)) acc = 0) ↔
        (acc = 0 ∧ ∀ xy ∈ l, xy.1 = xy.2) := by
  intro l
  induction l with
  | nil => intro acc; simp
  | cons xy l ih =>
    intro acc
    rw [List.foldl_cons, ih]
    constructor
    · rintro ⟨h1, h2⟩
      obtain ⟨ha, hx⟩ := nat_or_eq_zero h1
      exact ⟨ha, fun yz hyz => by
        rcases List.mem_cons.mp hyz with h | h
        · subst h; exact Nat.xor_eq_zero.mp hx
        · exact h2 yz h⟩
    · rintro ⟨ha, h2⟩
      subst ha
      have hx : xy.1 ^^^ xy.2 = 0 := Nat.xor_eq_zero.mpr (h2 xy (List.mem_cons_self _ _))
      exact ⟨by simp [hx], fun yz hyz => h2 yz (List.mem_cons_of_mem _ hyz)⟩

theorem eq_of_zip_eq :
    ∀ (a b : List Nat), a.length = b.length →
      (∀ xy ∈ a.zip b, xy.1 = xy.2) → a = b := by
  intro a
  induction a with
  | nil => intro b h _; cases b with
    | nil => rfl
    | cons y ys => simp at h
  | cons x xs ih =>
    intro b h hz
    cases b with
    | nil => simp at h
    | cons y ys =>
      have hx : x = y := hz (x, y) (List.mem_cons_self _ _)
      have := ih ys (by simpa using h)
        (fun xy hxy => hz xy (List.mem_cons_of_mem _ hxy))
      rw [hx, this]

theorem mem_zip_self :
    ∀ (a : List Nat), ∀ xy ∈ a.zip a, xy.1 = xy.2 := by
  intro a
  induction a with
  | nil => intro xy h; simp at h
  | cons x xs ih =>
    intro xy h
    rcases List.mem_cons.mp h with h1 | h2
    · subst h1; rfl
    · exact ih xy h2

theorem constant_time_compare_eq_true_iff (a b : List Nat) :
    constant_time_compare a b = true ↔ a = b := by
  unfold constant_time_compare
  by_cases hlen : a.length = b.length
  · rw [if_neg (by simpa using hlen), beq_iff_eq, ctcFold_eq_zero]
    constructor
    · rintro ⟨-, h⟩
      exact eq_of_zip_eq a b hlen h
    · rintro rfl
      exact ⟨rfl, mem_zip_self a⟩
  · rw [if_pos (by simpa using hlen)]
    constructor
    · intro h
      exact absurd h (by simp)
    · intro h
      exact absurd (congrArg List.length h) hlen

theorem flatten_all16 :
    ∀ bs : List (List Nat), (∀ b ∈ bs, b.length = 16) →
      bs.flatten.length = 16 * bs.length := by
  intro bs
  induction bs with
  | nil => intro _; rfl
  | cons b bs ih =>
    intro h
    rw [List.flatten_cons, List.length_append, h b (List.mem_cons_self _ _),
      ih (fun c hc => h c (List.mem_cons_of_mem _ hc))]
    simp only [List.length_cons]
    ring

theorem aes_encrypt_length (E : List Nat → List Nat → List Nat)
    (key iv p : List Nat) (hiv : iv.length = 16)
    (hE : ∀ b : List Nat, b.length = 16 → (E key b).length = 16) :
    (aes_encrypt E p key iv).length = 16 * (p.length / 16 + 1) := by
  have hblocks : ∀ b ∈ chunks16 (pkcs7Pad p), b.length = 16 :=
    chunks16_all16 _ (pkcs7Pad_mod p)
  have hencall : ∀ c ∈ cbcEnc (E key) iv (chunks16 (pkcs7Pad p)), c.length = 16 :=
    cbcEnc_length16 _ hE _ iv hiv hblocks
  rw [aes_encrypt, flatten_all16 _ hencall, cbcEnc_count]
  rw [chunks16, chunksAux_count _ _ le_rfl (pkcs7Pad_mod p), pkcs7Pad_length]
  omega

theorem frame_split (mac iv ct : List Nat) (hm : mac.length = 32)
    (hiv : iv.length = 16) :
    (mac ++ (iv ++ ct)).take 32 = mac ∧
    (mac ++ (iv ++ ct)).drop 32 = iv ++ ct ∧
    ((mac ++ (iv ++ ct)).drop 32).take 16 = iv ∧
    (mac ++ (iv ++ ct)).drop 48 = ct := by
  refine ⟨List.take_left' hm, List.drop_left' hm, ?_, ?_⟩
  · rw [List.drop_left' hm, List.take_left' hiv]
  · rw [show (48 : Nat) = 32 + 16 from rfl, ← List.drop_drop,
      List.drop_left' hm, List.drop_left' hiv]

/-- C1: for every plaintext `P` and every draw of key material,
`decrypt_content` applied to the framed blob and the `EncryptionInfo`
returned by `encrypt_content` succeeds and returns exactly `P`.  The
external primitives appear as parameters: `E key` is the AES-256 block
permutation of the `aes` crate, `D key` its inverse, `hmac` is
HMAC-SHA256 (32-byte output), `sha256` the SHA-256 digest; the three
hypotheses are the contracts those crates guarantee. -/
theorem encrypt_then_decrypt_roundtrip
    (E D hmac : List Nat → List Nat → List Nat) (sha256 : List Nat → List Nat)
    (key mac_key iv plaintext : List Nat)
    (hiv : iv.length = 16)
    (hE : ∀ b : List Nat, b.length = 16 → (E key b).length = 16)
    (hD : ∀ b : List Nat, b.length = 16 → D key (E key b) = b)
    (hH : ∀ k d : List Nat, (hmac k d).length = 32) :
    decrypt_content D hmac
      (encrypt_content E hmac sha256 key mac_key iv plaintext).1
      (encrypt_content E hmac sha256 key mac_key iv plaintext).2 =
      .ok plaintext := by
  set ct := aes_encrypt E plaintext key iv with hct
  set mac := hmac mac_key (iv ++ ct) with hmacdef
  have henc1 : (encrypt_content E hmac sha256 key mac_key iv plaintext).1
      = mac ++ (iv ++ ct) := by
    simp [encrypt_content, hct, hmacdef, List.append_assoc]
  have hkey : (encrypt_content E hmac sha256 key mac_key iv plaintext).2.encryption_key
      = key := rfl
  have hmk : (encrypt_content E hmac sha256 key mac_key iv plaintext).2.mac_key
      = mac_key := rfl
  have hmLen : mac.length = 32 := hH _ _
  have hctlen : ct.length = 16 * (plaintext.length / 16 + 1) :=
    aes_encrypt_length E key iv plaintext hiv hE
  have hct16 : 16 ≤ ct.length := by omega
  have hmod : ct.length % 16 = 0 := by omega
  obtain ⟨ht32, hd32, ht16, hd48⟩ := frame_split mac iv ct hmLen hiv
  have hflen : (mac ++ (iv ++ ct)).length = 48 + ct.length := by
    simp [hmLen, hiv]
    omega
  rw [decrypt_content, henc1, if_neg (by omega)]
  simp only [hd48, ht32, hd32, List.take_left' hiv, hmk, hkey, ← hmacdef]
  rw [if_neg (by simp [constant_time_compare_eq_true_iff])]
  have hblocks : ∀ b ∈ chunks16 (pkcs7Pad plaintext), b.length = 16 :=
    chunks16_all16 _ (pkcs7Pad_mod plaintext)
  have hencall : ∀ c ∈ cbcEnc (E key) iv (chunks16 (pkcs7Pad plaintext)),
      c.length = 16 := cbcEnc_length16 _ hE _ iv hiv hblocks
  have hchunks : chunks16 ct = cbcEnc (E key) iv (chunks16 (pkcs7Pad plaintext)) := by
    rw [hct, aes_encrypt]
    exact chunks16_join _ hencall
  rw [aes_decrypt, if_neg (by omega), hchunks,
    cbcDec_cbcEnc (E key) (D key) hE hD _ iv hiv hblocks,
    join_chunks16, pkcs7Unpad_pad]

/-- Witness for C1 at a concrete input: identity block permutation,
constant hmac, plaintext `[1, 2, 3]`. -/
theorem encrypt_then_decrypt_roundtrip_witness :
    decrypt_content (fun _ b => b) (fun _ _ => List.replicate 32 0)
      (encrypt_content (fun _ b => b) (fun _ _ => List.replicate 32 0)
        (fun _ => []) (List.replicate 32 1) (List.replicate 32 2)
        (List.replicate 16 3) [1, 2, 3]).1
      (encrypt_content (fun _ b => b) (fun _ _ => List.replicate 32 0)
        (fun _ => []) (List.replicate 32 1) (List.replicate 32 2)
        (List.replicate 16 3) [1, 2, 3]).2 = .ok [1, 2, 3] :=
  encrypt_then_decrypt_roundtrip (fun _ b => b) (fun _ b => b)
    (fun _ _ => List.replicate 32 0) (fun _ => [])
    (List.replicate 32 1) (List.replicate 32 2) (List.replicate 16 3) [1, 2, 3]
    (by simp) (fun _ h => h) (fun _ _ => rfl) (fun _ _ => by simp)

theorem split_32_48 (x : List Nat) :
    (x.drop 32).take 16 ++ x.drop 48 = x.drop 32 := by
  rw [show (48 : Nat) = 32 + 16 from rfl, ← List.drop_drop]
  exact List.take_append_drop 16 (x.drop 32)

/-- C2: changing any byte of the framed blob to a different value makes
`decrypt_content` fail with `HmacVerificationFailed`, with no plaintext
produced and without touching AES decryption (the decryption
permutation `D` is universally quantified and unused by the result).
For a position inside the stored 32-byte MAC this is unconditional; for
a position in the `IV ‖ ciphertext` region it holds exactly when the
recomputed HMAC-SHA256 of the altered payload differs from the stored
tag, i.e. in the absence of an HMAC collision — which is the guarantee
HMAC-SHA256 provides. -/
theorem tampered_frame_hmac_fail
    (E D hmac : List Nat → List Nat → List Nat) (sha256 : List Nat → List Nat)
    (key mac_key iv plaintext : List Nat) (i v : Nat)
    (hiv : iv.length = 16)
    (hE : ∀ b : List Nat, b.length = 16 → (E key b).length = 16)
    (hH : ∀ k d : List Nat, (hmac k d).length = 32)
    (hi : i < ((encrypt_content E hmac sha256 key mac_key iv plaintext).1).length)
    (hne : ((encrypt_content E hmac sha256 key mac_key iv plaintext).1)[i]? ≠ some v)
    (hcoll : i < 32 ∨
      hmac mac_key
          (((encrypt_content E hmac sha256 key mac_key iv plaintext).1.set i v).drop 32)
        ≠ hmac mac_key
          ((encrypt_content E hmac sha256 key mac_key iv plaintext).1.drop 32)) :
    decrypt_content D hmac
      ((encrypt_content E hmac sha256 key mac_key iv plaintext).1.set i v)
      (encrypt_content E hmac sha256 key mac_key iv plaintext).2 =
      .error .HmacVerificationFailed := by
  set ct := aes_encrypt E plaintext key iv with hct
  set mac := hmac mac_key (iv ++ ct) with hmacdef
  have henc1 : (encrypt_content E hmac sha256 key mac_key iv plaintext).1
      = mac ++ (iv ++ ct) := by
    simp [encrypt_content, hct, hmacdef, List.append_assoc]
  have hmk : (encrypt_content E hmac sha256 key mac_key iv plaintext).2.mac_key
      = mac_key := rfl
  have hmLen : mac.length = 32 := hH _ _
  have hctlen : ct.length = 16 * (plaintext.length / 16 + 1) :=
    aes_encrypt_length E key iv plaintext hiv hE
  have hflen : (mac ++ (iv ++ ct)).length = 48 + ct.length := by
    simp [hmLen, hiv]
    omega
  have hd32 : (mac ++ (iv ++ ct)).drop 32 = iv ++ ct := List.drop_left' hmLen
  have ht32 : (mac ++ (iv ++ ct)).take 32 = mac := List.take_left' hmLen
  rw [henc1] at hi hne hcoll ⊢
  have hstored : ((mac ++ (iv ++ ct)).set i v).take 32 = mac.set i v := by
    rw [List.set_take, ht32]
  have hcomp_ne :
      hmac mac_key (((mac ++ (iv ++ ct)).set i v).drop 32) ≠ mac.set i v := by
    by_cases hlt : i < 32
    · -- the altered byte lies in the stored MAC region
      have hdropset : ((mac ++ (iv ++ ct)).set i v).drop 32 = iv ++ ct := by
        rw [List.drop_set, if_pos hlt, hd32]
      rw [hdropset, ← hmacdef]
      intro habs
      have hilen : i < mac.length := by omega
      refine hne ?_
      rw [List.getElem?_append_left hilen, congrArg (fun l => l[i]?) habs,
        List.getElem?_set_self hilen]
    · -- the altered byte lies in `IV ‖ ciphertext`: no HMAC collision
      rcases hcoll with h32 | hcne
      · exact absurd h32 hlt
      · rw [hd32, ← hmacdef] at hcne
        have hsetmac : mac.set i v = mac :=
          List.set_eq_of_length_le (by omega)
        rw [hsetmac]
        exact hcne
  have hfalse : constant_time_compare
      (hmac mac_key ((((mac ++ (iv ++ ct)).set i v).drop 32).take 16
        ++ ((mac ++ (iv ++ ct)).set i v).drop 48))
      (((mac ++ (iv ++ ct)).set i v).take 32) = false := by
    rw [split_32_48, hstored]
    cases hb : constant_time_compare
        (hmac mac_key (((mac ++ (iv ++ ct)).set i v).drop 32)) (mac.set i v) with
    | false => rfl
    | true => exact absurd ((constant_time_compare_eq_true_iff _ _).mp hb) hcomp_ne
  rw [decrypt_content, if_neg (by rw [List.length_set]; omega)]
  simp only [hmk]
  rw [if_pos (by simp [hfalse])]

/-- Witness for C2 at a concrete input: tampering with byte 0 (inside
the stored MAC) of a concrete framed blob. -/
theorem tampered_frame_hmac_fail_witness :
    decrypt_content (fun _ b => b) (fun _ _ => List.replicate 32 0)
      ((encrypt_content (fun _ b => b) (fun _ _ => List.replicate 32 0)
        (fun _ => []) (List.replicate 32 1) (List.replicate 32 2)
        (List.replicate 16 3) [1, 2, 3]).1.set 0 5)
      (encrypt_content (fun _ b => b) (fun _ _ => List.replicate 32 0)
        (fun _ => []) (List.replicate 32 1) (List.replicate 32 2)
        (List.replicate 16 3) [1, 2, 3]).2 =
      .error .HmacVerificationFailed :=
  tampered_frame_hmac_fail (fun _ b => b) (fun _ b => b)
    (fun _ _ => List.replicate 32 0) (fun _ => [])
    (List.replicate 32 1) (List.replicate 32 2) (List.replicate 16 3) [1, 2, 3]
    0 5 (by simp) (fun _ h => h) (fun _ _ => by simp)
    (by decide) (by decide) (Or.inl (by decide))

/-- C10: the framed blob of `encrypt_content` has length exactly
`48 + 16 * (⌊|P|/16⌋ + 1)` — hence at least 64 bytes with a non-empty
ciphertext of length a multiple of 16 — and `decrypt_content` applied
to it (with any `EncryptionInfo` whatsoever) can never return a
`DecryptionError`: the "Encrypted data too short" and "Invalid
ciphertext length" branches are unreachable. -/
theorem encrypt_framing_length
    (E D hmac : List Nat → List Nat → List Nat) (sha256 : List Nat → List Nat)
    (key mac_key iv plaintext : List Nat)
    (hiv : iv.length = 16)
    (hE : ∀ b : List Nat, b.length = 16 → (E key b).length = 16)
    (hH : ∀ k d : List Nat, (hmac k d).length = 32) :
    ((encrypt_content E hmac sha256 key mac_key iv plaintext).1).length
        = 48 + 16 * (plaintext.length / 16 + 1) ∧
    64 ≤ ((encrypt_content E hmac sha256 key mac_key iv plaintext).1).length ∧
    ((encrypt_content E hmac sha256 key mac_key iv plaintext).1).drop 48 ≠ [] ∧
    (((encrypt_content E hmac sha256 key mac_key iv plaintext).1).drop 48).length % 16
        = 0 ∧
    ∀ (info : EncryptionInfo) (r : String),
      decrypt_content D hmac
        (encrypt_content E hmac sha256 key mac_key iv plaintext).1 info ≠
        .error (.DecryptionError r) := by
  set ct := aes_encrypt E plaintext key iv with hct
  set mac := hmac mac_key (iv ++ ct) with hmacdef
  have henc1 : (encrypt_content E hmac sha256 key mac_key iv plaintext).1
      = mac ++ (iv ++ ct) := by
    simp [encrypt_content, hct, hmacdef, List.append_assoc]
  have hmLen : mac.length = 32 := hH _ _
  have hctlen : ct.length = 16 * (plaintext.length / 16 + 1) :=
    aes_encrypt_length E key iv plaintext hiv hE
  have hflen : (mac ++ (iv ++ ct)).length = 48 + ct.length := by
    simp [hmLen, hiv]
    omega
  have hd48 : (mac ++ (iv ++ ct)).drop 48 = ct := by
    rw [show (48 : Nat) = 32 + 16 from rfl, ← List.drop_drop,
      List.drop_left' hmLen, List.drop_left' hiv]
  rw [henc1]
  refine ⟨by omega, by omega, ?_, ?_, ?_⟩
  · rw [hd48]
    intro habs
    have := congrArg List.length habs
    simp only [List.length_nil] at this
    omega
  · rw [hd48]
    omega
  · intro info r
    simp only [decrypt_content]
    rw [if_neg (by omega)]
    split
    · intro h
      exact PackageError.noConfusion (Except.error.inj h)
    · rw [hd48, aes_decrypt, if_neg (by omega)]
      split
      · intro h
        exact Except.noConfusion h
      · intro h
        exact PackageError.noConfusion (Except.error.inj h)

/-- Witness for C10 at a concrete input. -/
theorem encrypt_framing_length_witness :
    ((encrypt_content (fun _ b => b) (fun _ _ => List.replicate 32 0)
        (fun _ => []) (List.replicate 32 1) (List.replicate 32 2)
        (List.replicate 16 3) [1, 2, 3]).1).length = 48 + 16 * (3 / 16 + 1) ∧
    ∀ (r : String),
      decrypt_content (fun _ b => b) (fun _ _ => List.replicate 32 0)
        (encrypt_content (fun _ b => b) (fun _ _ => List.replicate 32 0)
          (fun _ => []) (List.replicate 32 1) (List.replicate 32 2)
          (List.replicate 16 3) [1, 2, 3]).1 EncryptionInfo.new ≠
        .error (.DecryptionError r) := by
  have h := encrypt_framing_length (fun _ b => b) (fun _ b => b)
    (fun _ _ => List.replicate 32 0) (fun _ => [])
    (List.replicate 32 1) (List.replicate 32 2) (List.replicate 16 3) [1, 2, 3]
    (by simp) (fun _ h => h) (fun _ _ => by simp)
  exact ⟨h.1, fun r => h.2.2.2.2 EncryptionInfo.new r⟩

/-- C7: each core error kind maps to its canonical exit code — empty
source folder to 3, setup file not found to 4, output write error to 5,
scripts folder not found to 6 — but the `Cancelled` kind maps to the
general error code 1, not to the declared (and otherwise unused)
`exit_codes::CANCELLED = 7`: the code contradicts its own constant. -/
theorem exit_code_mapping :
    (PackageError.SourceFolderEmpty "src").exit_code = 3 ∧
    (PackageError.SetupFileNotFound "setup.exe" "src").exit_code = 4 ∧
    (PackageError.OutputWriteError "out" "denied").exit_code = 5 ∧
    (PackageError.ScriptsFolderNotFound "scripts").exit_code = 6 ∧
    PackageError.Cancelled.exit_code = 1 ∧
    exit_codes.CANCELLED = 7 := by
  decide

/-! ### CPIO odc writer (`src/macos/cpio.rs`) -/

/-- Byte string of an ASCII string literal. -/
def ascii (s : String) : List Nat := s.toList.map Char.toNat

/-- `{:0w$o}` formatting: octal digits, zero-padded to a minimum width
`w` (Rust widens beyond `w` when the value needs more digits). -/
def octalPad (w n : Nat) : List Nat :=
  let digits := (Nat.toDigits 8 n).map Char.toNat
  List.replicate (w - digits.length) 48 ++ digits

/-- A `CpioEntry`: `(path bytes, file bytes, permission bits)`. -/
abbrev CpioEntry : Type := List Nat × List Nat × Nat

/-- The `CpioHeader` struct. -/
structure CpioHeader where
  dev : Nat
  ino : Nat
  mode : Nat
  uid : Nat
  gid : Nat
  nlink : Nat
  rdev : Nat
  mtime : Nat
  namesize : Nat
  filesize : Nat

/-- `CpioHeader::for_file`; `SystemTime::now()` is the parameter `now`
(seconds since the epoch, best effort). -/
def CpioHeader.for_file (now mode size name_len ino : Nat) : CpioHeader :=
  { dev := 0
    ino := ino
    mode := 0o100000 ||| (mode % 0o10000)
    uid := 0
    gid := 80
    nlink := 1
    rdev := 0
    mtime := now
    namesize := name_len + 1
    filesize := size }

/-- `CpioHeader::trailer`. -/
def CpioHeader.trailer : CpioHeader :=
  { dev := 0, ino := 0, mode := 0, uid := 0, gid := 0, nlink := 1, rdev := 0,
    mtime := 0, namesize := 11, filesize := 0 }

/-- `CpioHeader::to_bytes`: the 76-byte ASCII octal header. -/
def CpioHeader.to_bytes (h : CpioHeader) : List Nat :=
  octalPad 6 0o70707 ++ octalPad 6 h.dev ++ octalPad 6 h.ino ++ octalPad 6 h.mode ++
    octalPad 6 h.uid ++ octalPad 6 h.gid ++ octalPad 6 h.nlink ++ octalPad 6 h.rdev ++
    octalPad 11 h.mtime ++ octalPad 6 h.namesize ++ octalPad 11 h.filesize

/-- The per-entry loop of `create_cpio_archive` (header, path, NUL,
data), with the inode counter threaded through. -/
def cpioRecords (now : Nat) : Nat → List CpioEntry → List Nat
  | _, [] => []
  | ino, (path, data, mode) :: rest =>
    (CpioHeader.for_file now mode data.length path.length ino).to_bytes ++
      path ++ [0] ++ data ++ cpioRecords now (ino + 1) rest

/-- `create_cpio_archive`: records from inode 1, then the trailer header
and the literal `TRAILER!!!\0`. -/
def create_cpio_archive (now : Nat) (entries : List CpioEntry) : List Nat :=
  cpioRecords now 1 entries ++ CpioHeader.trailer.to_bytes ++ ascii "TRAILER!!!" ++ [0]

/-- Modelled from the spec: the gzip stream framing supplied by the
external `flate2::GzEncoder` (not code of this repository).  §4.2:
"wraps the result in a gzip stream (single member, default
compression). Output always begins `1f 8b`."  The member header after
the two magic bytes, the DEFLATE body, and the CRC/size trailer are
the constant `gzipHeaderRest` and the parameters `deflate`/`footer`. -/
def gzipCompress (deflate footer : List Nat → List Nat) (x : List Nat) : List Nat :=
  [0x1f, 0x8b] ++ gzipHeaderRest ++ deflate x ++ footer x
where
  gzipHeaderRest : List Nat := [8, 0, 0, 0, 0, 0, 0, 255]

/-- `create_payload`: gzip of the CPIO archive. -/
def create_payload (deflate footer : List Nat → List Nat) (now : Nat)
    (entries : List CpioEntry) : List Nat :=
  gzipCompress deflate footer (create_cpio_archive now entries)

theorem cpio_magic6 : octalPad 6 0o70707 = ascii "070707" := by decide

/-- C9: `create_payload` begins `1f 8b`; un-gzipping it (any `gunzip`
satisfying the flate2 round-trip contract) yields the CPIO archive,
whose first six bytes are `070707` and which ends with `TRAILER!!!`
followed by the terminating NUL. -/
theorem create_payload_shape (deflate footer : List Nat → List Nat)
    (gunzip : List Nat → Option (List Nat)) (now : Nat) (entries : List CpioEntry)
    (hgz : ∀ x, gunzip (gzipCompress deflate footer x) = some x) :
    (create_payload deflate footer now entries).take 2 = [0x1f, 0x8b] ∧
    ∃ cpio, gunzip (create_payload deflate footer now entries) = some cpio ∧
      cpio.take 6 = ascii "070707" ∧
      ∃ pre, cpio = pre ++ (ascii "TRAILER!!!" ++ [0]) := by
  refine ⟨rfl, create_cpio_archive now entries, hgz _, ?_, ?_⟩
  · have hm : (octalPad 6 0o70707).length = 6 := by decide
    rw [← cpio_magic6]
    cases entries with
    | nil =>
      simp only [create_cpio_archive, cpioRecords, CpioHeader.to_bytes,
        List.nil_append, List.append_assoc]
      rw [List.take_left' hm]
    | cons e rest =>
      obtain ⟨path, data, mode⟩ := e
      simp only [create_cpio_archive, cpioRecords, CpioHeader.to_bytes,
        List.append_assoc]
      rw [List.take_left' hm]
  · exact ⟨cpioRecords now 1 entries ++ CpioHeader.trailer.to_bytes, by
      simp [create_cpio_archive, List.append_assoc]⟩

/-- Witness for C9 at a concrete input (identity DEFLATE, empty
footer, `gunzip` dropping the 10-byte member header). -/
theorem create_payload_shape_witness :
    (create_payload id (fun _ => []) 0 [(ascii "a.txt", [104, 105], 0o644)]).take 2
        = [0x1f, 0x8b] ∧
    ∃ cpio, (fun g => some (List.drop 10 g))
        (create_payload id (fun _ => []) 0 [(ascii "a.txt", [104, 105], 0o644)])
        = some cpio ∧
      cpio.take 6 = ascii "070707" ∧
      ∃ pre, cpio = pre ++ (ascii "TRAILER!!!" ++ [0]) :=
  create_payload_shape id (fun _ => []) (fun g => some (List.drop 10 g)) 0
    [(ascii "a.txt", [104, 105], 0o644)]
    (fun x => by simp [gzipCompress, gzipCompress.gzipHeaderRest])

/-! ### XAR writer (`src/macos/xar.rs`)

Only the parts the claims touch are embedded: entry management
(`add_file` / `add_directory` / `find_parent_id`), the offset
bookkeeping of `write_toc_entries` (the `<data><offset>` values, in
nested document order), and the heap assembly of `finish` (TOC SHA-1,
then each file's raw bytes in the order of `self.entries`). -/

/-- `EntryType`. -/
inductive XarEntryType where
  | File
  | Directory
deriving DecidableEq

/-- `XarEntry`; `offset` and `checksum` stay at their initial values in
the builder (they are never read back by `finish`). -/
structure XarEntry where
  name : List Char
  path : List Char
  entry_type : XarEntryType
  data : List Nat
  offset : Nat
  checksum : List Char
  id : Nat
  parent_id : Option Nat
deriving DecidableEq

/-- `XarBuilder`. -/
structure XarBuilder where
  entries : List XarEntry
  next_id : Nat
deriving DecidableEq

/-- `XarBuilder::new()`. -/
def XarBuilder.new : XarBuilder := ⟨[], 1⟩

/-- `path.rsplit('/').next().unwrap_or(path)`: the final component. -/
def lastComponent (path : List Char) : List Char :=
  (path.reverse.takeWhile (· ≠ '/')).reverse

/-- `path.rsplit_once('/').map(|(p, _)| p)`: everything before the last
slash, when a slash exists. -/
def parentPath (path : List Char) : Option (List Char) :=
  if path.contains '/' then
    some (path.take (path.length - (lastComponent path).length - 1))
  else none

/-- `XarBuilder::find_parent_id`: the first already-added directory
entry whose path equals the parent path. -/
def XarBuilder.find_parent_id (b : XarBuilder) (path : List Char) : Option Nat :=
  match parentPath path with
  | none => none
  | some pp =>
    (b.entries.find? fun e =>
      e.path == pp && e.entry_type == XarEntryType.Directory).map (·.id)

/-- `XarBuilder::add_file`. -/
def XarBuilder.add_file (b : XarBuilder) (path : List Char) (data : List Nat) :
    XarBuilder :=
  { entries := b.entries ++
      [{ name := lastComponent path, path := path, entry_type := .File,
         data := data, offset := 0, checksum := [], id := b.next_id,
         parent_id := b.find_parent_id path }]
    next_id := b.next_id + 1 }

/-- `XarBuilder::add_directory`. -/
def XarBuilder.add_directory (b : XarBuilder) (path : List Char) : XarBuilder :=
  { entries := b.entries ++
      [{ name := lastComponent path, path := path, entry_type := .Directory,
         data := [], offset := 0, checksum := [], id := b.next_id,
         parent_id := b.find_parent_id path }]
    next_id := b.next_id + 1 }

/-- One `add_file` / `add_directory` call. -/
inductive XarCall where
  | addFile (path : List Char) (data : List Nat)
  | addDir (path : List Char)

/-- Apply a call to a builder. -/
def XarBuilder.apply (b : XarBuilder) : XarCall → XarBuilder
  | .addFile path data => b.add_file path data
  | .addDir path => b.add_directory path

/-- Run a call sequence on a fresh builder. -/
def buildXar (calls : List XarCall) : XarBuilder :=
  calls.foldl XarBuilder.apply XarBuilder.new

/-- The offset bookkeeping of `write_toc_entries`: walk the entries
with the given parent in insertion order; a file contributes the triple
`(id, declared offset, raw length)` and advances the offset, a
directory recurses into its children first.  Returns the `<data>`
triples in nested document order and the final offset.  The fuel bounds
the directory-nesting depth (parent ids are strictly smaller than child
ids, so `entries.length` levels suffice). -/
def tocWalk (entries : List XarEntry) :
    Nat → Option Nat → Nat → List (Nat × Nat × Nat) × Nat
  | 0, _, off => ([], off)
  | fuel + 1, parent, off =>
    entries.foldl
      (fun acc e =>
        if e.parent_id = parent then
          if e.entry_type = .File then
            (acc.1 ++ [(e.id, acc.2, e.data.length)], acc.2 + e.data.length)
          else
            let r := tocWalk entries fuel (some e.id) acc.2
            (acc.1 ++ r.1, r.2)
        else acc)
      ([], off)

/-- The `(id, offset, length)` triples declared by `generate_toc_xml`
(`write_toc_entries` starts at `SHA1_SIZE = 20`). -/
def XarBuilder.tocOffsets (b : XarBuilder) : List (Nat × Nat × Nat) :=
  (tocWalk b.entries (b.entries.length + 1) none 20).1

/-- The heap written by `finish`: the 20-byte SHA-1 of the compressed
TOC (a parameter, computed by the external `sha1` crate), then each
file entry's raw bytes in the order of `self.entries`. -/
def XarBuilder.heap (b : XarBuilder) (toc_checksum : List Nat) : List Nat :=
  toc_checksum ++
    ((b.entries.filter (fun e => e.entry_type == XarEntryType.File)).map
      (·.data)).flatten

/-- C3: the TOC declares `<data><offset>` values in nested-traversal
order (first file at heap offset 20, each next at the previous offset
plus the previous length), but `finish` writes the heap in insertion
order — and for call sequences where the two orders differ the file
bytes do NOT sit at the declared offsets.  Concretely, after
`add_directory "d"; add_file "b" [1]; add_file "d/a" [2, 3]` the TOC
declares file id 3 (`d/a`, bytes `[2, 3]`) at heap offset 20 with
length 2, yet heap bytes 20..22 are `[1, 2]` (the 1-byte file `b`
followed by the first byte of `d/a`). -/
theorem xar_heap_offset_mismatch :
    (buildXar [XarCall.addDir "d".toList,
               XarCall.addFile "b".toList [1],
               XarCall.addFile "d/a".toList [2, 3]]).tocOffsets
        = [(3, 20, 2), (2, 22, 1)] ∧
    (((buildXar [XarCall.addDir "d".toList,
                 XarCall.addFile "b".toList [1],
                 XarCall.addFile "d/a".toList [2, 3]]).heap
        (List.replicate 20 0)).drop 20).take 2 = [1, 2] ∧
    ((buildXar [XarCall.addDir "d".toList,
                XarCall.addFile "b".toList [1],
                XarCall.addFile "d/a".toList [2, 3]]).entries.find?
        (fun e => e.id == 3)).map (·.data) = some [2, 3] ∧
    [1, 2] ≠ [2, 3] := by
  decide

/-! ### BOM writer (`src/macos/bom.rs`)

Paths are modelled as their slash-separated component byte strings; a
path's string form (the key of the Rust `HashMap<String, u32>`) is the
components joined by `/` (byte 47).  This is exactly `PathBuf`
behaviour for the well-formed paths the spec admits (non-empty
components without `/`, `.` or `..`). -/

/-- `BomEntry`, with the path as its component byte strings. -/
structure BomEntry where
  path : List (List Nat)
  mode : Nat
  uid : Nat
  gid : Nat
  size : Nat
deriving DecidableEq

/-- Join path components with `/` (byte 47): the `to_string_lossy`
form used as the `HashMap` key. -/
def joinSlash : List (List Nat) → List Nat
  | [] => []
  | [c] => c
  | c :: cs => c ++ [47] ++ joinSlash cs

/-- The component prefixes of a path, shortest first (the inner
`for component in entry.path.components()` loop builds these). -/
def componentPrefixes (p : List (List Nat)) : List (List (List Nat)) :=
  (List.range p.length).map (fun i => p.take (i + 1))

/-- One step of the path-enumeration loop: walk the component prefixes
of one entry, appending each prefix the first time its string key
appears; a prefix whose key equals the entry's full path key binds the
entry.  Ids are positions + 1. -/
def addEntryPaths (acc : List (List (List Nat) × Option BomEntry)) (e : BomEntry) :
    List (List (List Nat) × Option BomEntry) :=
  (componentPrefixes e.path).foldl
    (fun acc pre =>
      if joinSlash pre ∈ acc.map (fun pe => joinSlash pe.1) then acc
      else acc ++ [(pre, if joinSlash pre = joinSlash e.path then some e else none)])
    acc

/-- `all_paths`: the root `"."` (key `[46]`, id 1), then every new
component prefix in first-appearance order. -/
def allPaths (entries : List BomEntry) : List (List (List Nat) × Option BomEntry) :=
  entries.foldl addEntryPaths [([[46]], none)]

/-- The `PathInfo2` block of one path (explicit entry or synthetic
parent directory); `TYPE_FILE = 1`, `TYPE_DIR = 2`. -/
def pathInfo2Bytes (item : List (List Nat) × Option BomEntry) : List Nat :=
  match item.2 with
  | some e =>
    (if e.mode &&& 0o170000 = 0o040000 then [2] else [1]) ++ [1] ++
      be16 3 ++ be16 (e.mode &&& 0xFFFF) ++ be32 e.uid ++ be32 e.gid ++
      be32 0 ++ be32 e.size ++ [1] ++ be32 0 ++ be32 0
  | none =>
    [2] ++ [1] ++ be16 3 ++ be16 0o40755 ++ be32 0 ++ be32 80 ++
      be32 0 ++ be32 0 ++ [1] ++ be32 0 ++ be32 0

/-- Position of a path key in `paths` (`path_ids[key] = position + 1`). -/
def pathIndex (paths : List (List (List Nat) × Option BomEntry)) (key : List Nat) :
    Option Nat :=
  (paths.map (fun pe => joinSlash pe.1)).indexOf? key

/-- The `BOMFile` block of one path: `u32 parent_id`, the final
component, a NUL.  The root has parent 0; a top-level path has parent 1
(the root); otherwise the id of the parent path (default 1). -/
def bomFileBytes (paths : List (List (List Nat) × Option BomEntry))
    (item : List (List Nat) × Option BomEntry) : List Nat :=
  let parent_id : Nat :=
    if joinSlash item.1 = [46] then 0
    else if item.1.length = 1 then 1
    else match pathIndex paths (joinSlash item.1.dropLast) with
      | some j => j + 1
      | none => 1
  let name : List Nat :=
    if joinSlash item.1 = [46] then [46] else item.1.getLastD []
  be32 parent_id ++ name ++ [0]

/-- The `BOMPaths` leaf block: `u16 isLeaf=1, u16 count, u32 forward=0,
u32 backward=0`, then per path the `PathInfo1` and `BOMFile` block
indices (`PathInfo1` blocks start at index `2 + n`, `BOMFile` blocks at
`2 + 2n`, in id order). -/
def pathsLeafBytes (n : Nat) : List Nat :=
  be16 1 ++ be16 n ++ be32 0 ++ be32 0 ++
    ((List.range n).map (fun j => be32 (2 + n + j) ++ be32 (2 + 2 * n + j))).flatten

/-- A `tree` block (`build_tree`): magic, version 1, child block,
block size 4096, path count, one zero byte. -/
def treeBytes (child pathCount : Nat) : List Nat :=
  ascii "tree" ++ be32 1 ++ be32 child ++ be32 4096 ++ be32 pathCount ++ [0]

/-- An empty leaf (`build_empty_tree` / `build_vindex`). -/
def emptyLeafBytes : List Nat :=
  be16 1 ++ be16 0 ++ be32 0 ++ be32 0

/-- The VIndex tree (block size 128). -/
def viTreeBytes (child : Nat) : List Nat :=
  ascii "tree" ++ be32 1 ++ be32 child ++ be32 128 ++ be32 0 ++ [0]

/-- The 13-byte VIndex descriptor. -/
def viDescBytes (tree_block : Nat) : List Nat :=
  be32 1 ++ be32 tree_block ++ be32 0 ++ [0]

/-- The filled-in `BomInfo` block: version 1, number of paths, one info
entry, zero-padded to 28 bytes. -/
def bomInfoBytes (numberOfPaths : Nat) : List Nat :=
  be32 1 ++ be32 numberOfPaths ++ be32 1 ++ List.replicate 16 0

/-- The writer's block list after `create_bom` has run, in `add_block`
order: the null block 0; the `BomInfo` placeholder (index 1, later
filled); per path `PathInfo2` (indices `2 + j`), `PathInfo1`
(`2 + n + j`: `u32 id, u32 PathInfo2 index`), `BOMFile` (`2 + 2n + j`);
the paths leaf (`2 + 3n`) and its tree (`3 + 3n`); the `HLIndex` empty
leaf and tree (`4 + 3n`, `5 + 3n`); the `VIndex` leaf, tree and
descriptor (`6 + 3n`, `7 + 3n`, `8 + 3n`); the `Size64` leaf and tree
(`9 + 3n`, `10 + 3n`). -/
def bomBlocks (entries : List BomEntry) : List (List Nat) :=
  let paths := allPaths entries
  let n := paths.length
  [[], bomInfoBytes n] ++
    paths.map pathInfo2Bytes ++
    (List.range n).map (fun j => be32 (j + 1) ++ be32 (2 + j)) ++
    paths.map (bomFileBytes paths) ++
    [pathsLeafBytes n, treeBytes (2 + 3 * n) n,
     emptyLeafBytes, treeBytes (4 + 3 * n) 0,
     emptyLeafBytes, viTreeBytes (6 + 3 * n), viDescBytes (7 + 3 * n),
     emptyLeafBytes, treeBytes (9 + 3 * n) 0]

/-- The variable table of `create_bom`, in `add_var` order. -/
def bomVars (entries : List BomEntry) : List (List Nat × Nat) :=
  let n := (allPaths entries).length
  [(ascii "BomInfo", 1), (ascii "Paths", 3 + 3 * n), (ascii "HLIndex", 5 + 3 * n),
   (ascii "VIndex", 8 + 3 * n), (ascii "Size64", 10 + 3 * n)]

/-- The serialized vars table (`BomWriter::build`): `u32 count`, then
per variable `u32 block_index, u8 name_len, name bytes`. -/
def bomVarsData (vars : List (List Nat × Nat)) : List Nat :=
  be32 vars.length ++
    (vars.map (fun nv => be32 nv.2 ++ [nv.1.length % 256] ++ nv.1)).flatten

/-- The `(address, length)` pairs of the non-null blocks. -/
def bomBlockTableEntries : List (List Nat) → Nat → List Nat
  | [], _ => []
  | b :: bs, off => be32 off ++ be32 b.length ++ bomBlockTableEntries bs (off + b.length)

/-- The block table: `u32 total_entries`, the null pair `(0,0)`, the
non-null pairs, and the `u32 free_count = 0`. -/
def bomBlockTable (blocks : List (List Nat)) (blocksStart : Nat) : List Nat :=
  be32 blocks.length ++
    (match blocks with
     | [] => []
     | _ :: rest => be32 0 ++ be32 0 ++ bomBlockTableEntries rest blocksStart) ++
    be32 0

/-- `BomWriter::build`: 512-byte header, vars table, block data
(block 0 skipped), block table. -/
def bomBuild (blocks : List (List Nat)) (vars : List (List Nat × Nat)) : List Nat :=
  let varsData := bomVarsData vars
  let totalBlocksSize := ((blocks.drop 1).map List.length).sum
  let varsOffset := 512
  let blocksStart := varsOffset + varsData.length
  let indexOffset := blocksStart + totalBlocksSize
  let blockTable := bomBlockTable blocks blocksStart
  let header := ascii "BOMStore" ++ be32 1 ++ be32 (blocks.length - 1) ++
    be32 indexOffset ++ be32 blockTable.length ++ be32 varsOffset ++
    be32 varsData.length
  header ++ List.replicate (512 - header.length) 0 ++ varsData ++
    (blocks.drop 1).flatten ++ blockTable

/-- The byte offset of the block table inside the built BOM. -/
def bomIndexOffset (entries : List BomEntry) : Nat :=
  512 + (bomVarsData (bomVars entries)).length +
    (((bomBlocks entries).drop 1).map List.length).sum

/-- `create_bom`. -/
def create_bom (entries : List BomEntry) : Except PackageError (List Nat) :=
  if entries.isEmpty then
    .error (.BomError "Cannot create BOM with no entries")
  else
    .ok (bomBuild (bomBlocks entries) (bomVars entries))

/-! ### Reading back the BOM header (claims C4/C5) -/

theorem readU32_skip (x bs : List Nat) (off : Nat) (h : x.length ≤ off) :
    readU32 (x ++ bs) off = readU32 bs (off - x.length) := by
  unfold readU32
  rw [List.drop_append_eq_append_drop, List.drop_eq_nil_of_le h, List.nil_append]

theorem readU16_skip (x bs : List Nat) (off : Nat) (h : x.length ≤ off) :
    readU16 (x ++ bs) off = readU16 bs (off - x.length) := by
  unfold readU16
  rw [List.drop_append_eq_append_drop, List.drop_eq_nil_of_le h, List.nil_append]

/-- Parse a serialized vars table: `u32 count`, then `count` records of
`u32 block_index, u8 name_len, name_len name bytes`; returns the names
in order. -/
def decodeVarsAux : Nat → List Nat → Option (List (List Nat))
  | 0, _ => some []
  | k + 1, bs =>
    match bs.drop 4 with
    | [] => none
    | len :: rest =>
      if rest.length < len then none
      else
        match decodeVarsAux k (rest.drop len) with
        | some names => some (rest.take len :: names)
        | none => none

/-- Parse a vars table, count included. -/
def decodeVarNames (bs : List Nat) : Option (List (List Nat)) :=
  decodeVarsAux (readU32 bs 0) (bs.drop 4)

theorem decodeVarsAux_cons (k idx : Nat) (name rest : List Nat)
    (h : name.length < 256) :
    decodeVarsAux (k + 1) (be32 idx ++ (name.length % 256 :: (name ++ rest))) =
      (decodeVarsAux k rest).map (name :: ·) := by
  have h1 : (be32 idx ++ (name.length % 256 :: (name ++ rest))).drop 4
      = name.length % 256 :: (name ++ rest) := List.drop_left' (be32_length idx)
  have hmod : name.length % 256 = name.length := Nat.mod_eq_of_lt h
  rw [decodeVarsAux, h1, hmod]
  dsimp only
  rw [if_neg (by simp), List.take_left, List.drop_left]
  cases decodeVarsAux k rest <;> rfl

theorem decodeVarsAux_last (k idx : Nat) (name : List Nat)
    (h : name.length < 256) :
    decodeVarsAux (k + 1) (be32 idx ++ (name.length % 256 :: name)) =
      (decodeVarsAux k []).map (name :: ·) := by
  simpa using decodeVarsAux_cons k idx name [] h

theorem bomVarsData_length (entries : List BomEntry) :
    (bomVarsData (bomVars entries)).length = 60 := by
  simp [bomVarsData, bomVars, ascii, be32]

theorem bomVarsData_decode (entries : List BomEntry) :
    decodeVarNames (bomVarsData (bomVars entries)) =
      some [ascii "BomInfo", ascii "Paths", ascii "HLIndex", ascii "VIndex",
        ascii "Size64"] := by
  have h5 : readU32 (bomVarsData (bomVars entries)) 0 = 5 := by
    rw [bomVarsData]
    have : (bomVars entries).length = 5 := by simp [bomVars]
    rw [this]
    exact readU32_be32 5 _ (by norm_num)
  have hdrop : (bomVarsData (bomVars entries)).drop 4 =
      ((bomVars entries).map
        (fun nv => be32 nv.2 ++ [nv.1.length % 256] ++ nv.1)).flatten := by
    rw [bomVarsData]
    exact List.drop_left' (be32_length _)
  rw [decodeVarNames, h5, hdrop]
  simp only [bomVars, List.map_cons, List.map_nil, List.flatten_cons,
    List.flatten_nil, List.append_assoc, List.cons_append, List.nil_append,
    List.append_nil]
  rw [decodeVarsAux_cons _ _ _ _ (by decide), decodeVarsAux_cons _ _ _ _ (by decide),
    decodeVarsAux_cons _ _ _ _ (by decide), decodeVarsAux_cons _ _ _ _ (by decide),
    decodeVarsAux_last _ _ _ (by decide)]
  rfl

theorem bomBlocks_head (entries : List BomEntry) :
    bomBlocks entries =
      [] :: (bomInfoBytes (allPaths entries).length ::
        ((allPaths entries).map pathInfo2Bytes ++
          (List.range (allPaths entries).length).map
            (fun j => be32 (j + 1) ++ be32 (2 + j)) ++
          (allPaths entries).map (bomFileBytes (allPaths entries)) ++
          [pathsLeafBytes (allPaths entries).length,
           treeBytes (2 + 3 * (allPaths entries).length) (allPaths entries).length,
           emptyLeafBytes, treeBytes (4 + 3 * (allPaths entries).length) 0,
           emptyLeafBytes, viTreeBytes (6 + 3 * (allPaths entries).length),
           viDescBytes (7 + 3 * (allPaths entries).length),
           emptyLeafBytes, treeBytes (9 + 3 * (allPaths entries).length) 0])) := by
  simp [bomBlocks]

/-- Reads of the fixed header fields, for any BOM-shaped byte string
(right-associated). -/
theorem bom_take8 (rest : List Nat) :
    (ascii "BOMStore" ++ rest).take 8 = ascii "BOMStore" :=
  List.take_left' rfl

theorem readU32_hdr_version (rest : List Nat) :
    readU32 (ascii "BOMStore" ++ (be32 1 ++ rest)) 8 = 1 := by
  rw [readU32_skip _ _ 8 (by decide)]
  show readU32 (be32 1 ++ rest) 0 = 1
  exact readU32_be32 1 rest (by norm_num)

theorem readU32_hdr_index (a i : Nat) (rest : List Nat) (hi : i < 2 ^ 32) :
    readU32 (ascii "BOMStore" ++ (be32 1 ++ (be32 a ++ (be32 i ++ rest)))) 16 = i := by
  rw [readU32_skip _ _ 16 (by decide)]
  show readU32 (be32 1 ++ (be32 a ++ (be32 i ++ rest))) 8 = i
  rw [readU32_skip _ _ 8 (by decide)]
  show readU32 (be32 a ++ (be32 i ++ rest)) 4 = i
  rw [readU32_skip _ _ 4 (by simp [be32_length])]
  show readU32 (be32 i ++ rest) 0 = i
  exact readU32_be32 i rest hi

theorem readU32_hdr_varsOffset (a i l : Nat) (rest : List Nat) :
    readU32 (ascii "BOMStore" ++
      (be32 1 ++ (be32 a ++ (be32 i ++ (be32 l ++ (be32 512 ++ rest)))))) 24 = 512 := by
  rw [readU32_skip _ _ 24 (by decide)]
  show readU32 (be32 1 ++ (be32 a ++ (be32 i ++ (be32 l ++ (be32 512 ++ rest))))) 16 = 512
  rw [readU32_skip _ _ 16 (by decide)]
  show readU32 (be32 a ++ (be32 i ++ (be32 l ++ (be32 512 ++ rest)))) 12 = 512
  rw [readU32_skip _ _ 12 (by simp [be32_length])]
  show readU32 (be32 i ++ (be32 l ++ (be32 512 ++ rest))) 8 = 512
  rw [readU32_skip _ _ 8 (by simp [be32_length])]
  show readU32 (be32 l ++ (be32 512 ++ rest)) 4 = 512
  rw [readU32_skip _ _ 4 (by simp [be32_length])]
  show readU32 (be32 512 ++ rest) 0 = 512
  exact readU32_be32 512 rest (by norm_num)

theorem readU32_hdr_varsLength (a i l v : Nat) (rest : List Nat) (hv : v < 2 ^ 32) :
    readU32 (ascii "BOMStore" ++
      (be32 1 ++ (be32 a ++ (be32 i ++ (be32 l ++ (be32 512 ++ (be32 v ++ rest)))))))
      28 = v := by
  rw [readU32_skip _ _ 28 (by decide)]
  show readU32 (be32 1 ++ (be32 a ++ (be32 i ++ (be32 l ++ (be32 512 ++ (be32 v ++ rest))))))
      20 = v
  rw [readU32_skip _ _ 20 (by decide)]
  show readU32 (be32 a ++ (be32 i ++ (be32 l ++ (be32 512 ++ (be32 v ++ rest))))) 16 = v
  rw [readU32_skip _ _ 16 (by simp [be32_length])]
  show readU32 (be32 i ++ (be32 l ++ (be32 512 ++ (be32 v ++ rest)))) 12 = v
  rw [readU32_skip _ _ 12 (by simp [be32_length])]
  show readU32 (be32 l ++ (be32 512 ++ (be32 v ++ rest))) 8 = v
  rw [readU32_skip _ _ 8 (by simp [be32_length])]
  show readU32 (be32 512 ++ (be32 v ++ rest)) 4 = v
  rw [readU32_skip _ _ 4 (by decide)]
  show readU32 (be32 v ++ rest) 0 = v
  exact readU32_be32 v rest hv

/-- Decomposition of the built BOM: header fields, zero padding to 512
bytes, vars table, block data, block table. -/
theorem bomBuild_decomp (entries : List BomEntry) :
    bomBuild (bomBlocks entries) (bomVars entries) =
      ascii "BOMStore" ++ be32 1 ++ be32 ((bomBlocks entries).length - 1) ++
      be32 (bomIndexOffset entries) ++
      be32 (bomBlockTable (bomBlocks entries)
        (512 + (bomVarsData (bomVars entries)).length)).length ++
      be32 512 ++ be32 (bomVarsData (bomVars entries)).length ++
      List.replicate 480 0 ++ bomVarsData (bomVars entries) ++
      ((bomBlocks entries).drop 1).flatten ++
      bomBlockTable (bomBlocks entries)
        (512 + (bomVarsData (bomVars entries)).length) := by
  have h8 : (ascii "BOMStore").length = 8 := rfl
  simp only [bomBuild, bomIndexOffset]
  have hlen : (ascii "BOMStore" ++ be32 1 ++ be32 ((bomBlocks entries).length - 1) ++
      be32 (512 + (bomVarsData (bomVars entries)).length +
        (((bomBlocks entries).drop 1).map List.length).sum) ++
      be32 (bomBlockTable (bomBlocks entries)
        (512 + (bomVarsData (bomVars entries)).length)).length ++
      be32 512 ++ be32 (bomVarsData (bomVars entries)).length).length = 32 := by
    simp [List.length_append, be32_length, h8]
  rw [hlen]

theorem readU32_table4 (c : Nat) (rest : List Nat) :
    readU32 (be32 c ++ (be32 0 ++ rest)) 4 = 0 := by
  rw [readU32_skip _ _ 4 (by simp [be32_length])]
  show readU32 (be32 0 ++ rest) 0 = 0
  exact readU32_be32 0 rest (by norm_num)

theorem readU32_table8 (c : Nat) (rest : List Nat) :
    readU32 (be32 c ++ (be32 0 ++ (be32 0 ++ rest))) 8 = 0 := by
  rw [readU32_skip _ _ 8 (by simp [be32_length])]
  show readU32 (be32 0 ++ (be32 0 ++ rest)) 4 = 0
  rw [readU32_skip _ _ 4 (by simp [be32_length])]
  show readU32 (be32 0 ++ rest) 0 = 0
  exact readU32_be32 0 rest (by norm_num)

/-- C4: for every non-empty `BomEntry` list, `create_bom` succeeds and
returns a byte string beginning `BOMStore`, with version field 1,
`vars_offset` 512, whose `vars_length` bytes decode to exactly the five
named variables `BomInfo`, `Paths`, `HLIndex`, `VIndex`, `Size64` in
that order, and whose block table starts with the null pair `(0, 0)`.
(`hfit` keeps the block-table offset within `u32` range, which holds
for any BOM a real input can produce.) -/
theorem create_bom_header_shape (entries : List BomEntry)
    (hne : entries ≠ [])
    (hfit : bomIndexOffset entries < 2 ^ 32) :
    ∃ bom, create_bom entries = .ok bom ∧
      bom.take 8 = ascii "BOMStore" ∧
      readU32 bom 8 = 1 ∧
      readU32 bom 24 = 512 ∧
      decodeVarNames ((bom.drop 512).take (readU32 bom 28)) =
        some [ascii "BomInfo", ascii "Paths", ascii "HLIndex", ascii "VIndex",
          ascii "Size64"] ∧
      readU32 bom (readU32 bom 16 + 4) = 0 ∧
      readU32 bom (readU32 bom 16 + 8) = 0 := by
  have h8 : (ascii "BOMStore").length = 8 := rfl
  have hok : create_bom entries = .ok (bomBuild (bomBlocks entries) (bomVars entries)) := by
    rw [create_bom, if_neg (by simpa [List.isEmpty_iff] using hne)]
  have hv28 : readU32 (bomBuild (bomBlocks entries) (bomVars entries)) 28
      = (bomVarsData (bomVars entries)).length := by
    rw [bomBuild_decomp]
    simp only [List.append_assoc]
    exact readU32_hdr_varsLength _ _ _ _ _ (by rw [bomVarsData_length]; norm_num)
  have h16 : readU32 (bomBuild (bomBlocks entries) (bomVars entries)) 16
      = bomIndexOffset entries := by
    rw [bomBuild_decomp]
    simp only [List.append_assoc]
    exact readU32_hdr_index _ _ _ hfit
  have hgrp : bomBuild (bomBlocks entries) (bomVars entries) =
      (ascii "BOMStore" ++ be32 1 ++ be32 ((bomBlocks entries).length - 1) ++
        be32 (bomIndexOffset entries) ++
        be32 (bomBlockTable (bomBlocks entries)
          (512 + (bomVarsData (bomVars entries)).length)).length ++
        be32 512 ++ be32 (bomVarsData (bomVars entries)).length ++
        List.replicate 480 0) ++
      (bomVarsData (bomVars entries) ++
        (((bomBlocks entries).drop 1).flatten ++
          bomBlockTable (bomBlocks entries)
            (512 + (bomVarsData (bomVars entries)).length))) := by
    simp only [bomBuild_decomp, List.append_assoc]
  have hgrp2 : bomBuild (bomBlocks entries) (bomVars entries) =
      (ascii "BOMStore" ++ be32 1 ++ be32 ((bomBlocks entries).length - 1) ++
        be32 (bomIndexOffset entries) ++
        be32 (bomBlockTable (bomBlocks entries)
          (512 + (bomVarsData (bomVars entries)).length)).length ++
        be32 512 ++ be32 (bomVarsData (bomVars entries)).length ++
        List.replicate 480 0 ++ bomVarsData (bomVars entries) ++
        ((bomBlocks entries).drop 1).flatten) ++
      bomBlockTable (bomBlocks entries)
        (512 + (bomVarsData (bomVars entries)).length) := by
    simp only [bomBuild_decomp, List.append_assoc]
  have hPreLen : (ascii "BOMStore" ++ be32 1 ++ be32 ((bomBlocks entries).length - 1) ++
      be32 (bomIndexOffset entries) ++
      be32 (bomBlockTable (bomBlocks entries)
        (512 + (bomVarsData (bomVars entries)).length)).length ++
      be32 512 ++ be32 (bomVarsData (bomVars entries)).length ++
      List.replicate 480 0 ++ bomVarsData (bomVars entries) ++
      ((bomBlocks entries).drop 1).flatten).length = bomIndexOffset entries := by
    simp only [List.length_append, be32_length, h8, List.length_replicate,
      List.length_flatten, bomIndexOffset]
  obtain ⟨tail, htail⟩ : ∃ t, bomBlocks entries = [] :: t := ⟨_, bomBlocks_head entries⟩
  have htable : bomBlockTable (bomBlocks entries)
      (512 + (bomVarsData (bomVars entries)).length) =
      be32 (tail.length + 1) ++ (be32 0 ++ (be32 0 ++
        (bomBlockTableEntries tail (512 + (bomVarsData (bomVars entries)).length) ++
          be32 0))) := by
    rw [htail, bomBlockTable]
    simp [List.append_assoc]
  refine ⟨bomBuild (bomBlocks entries) (bomVars entries), hok, ?_, ?_, ?_, ?_, ?_, ?_⟩
  · rw [bomBuild_decomp]
    simp only [List.append_assoc]
    exact bom_take8 _
  · rw [bomBuild_decomp]
    simp only [List.append_assoc]
    exact readU32_hdr_version _
  · rw [bomBuild_decomp]
    simp only [List.append_assoc]
    exact readU32_hdr_varsOffset _ _ _ _
  · rw [hv28, bomVarsData_length]
    conv_lhs => rw [hgrp]
    rw [List.drop_left' (by
      simp only [List.length_append, be32_length, h8, List.length_replicate])]
    rw [List.take_left' (bomVarsData_length entries)]
    exact bomVarsData_decode entries
  · rw [h16]
    conv_lhs => rw [hgrp2]
    rw [readU32_skip _ _ _ (by rw [hPreLen]; omega), hPreLen,
      Nat.add_sub_cancel_left, htable]
    exact readU32_table4 _ _
  · rw [h16]
    conv_lhs => rw [hgrp2]
    rw [readU32_skip _ _ _ (by rw [hPreLen]; omega), hPreLen,
      Nat.add_sub_cancel_left, htable]
    exact readU32_table8 _ _

/-- Witness for C4 at a single concrete entry. -/
theorem create_bom_header_shape_witness :
    ∃ bom, create_bom [⟨[ascii "test.txt"], 0o100644, 0, 80, 5⟩] = .ok bom ∧
      bom.take 8 = ascii "BOMStore" ∧
      readU32 bom 8 = 1 ∧
      readU32 bom 24 = 512 ∧
      decodeVarNames ((bom.drop 512).take (readU32 bom 28)) =
        some [ascii "BomInfo", ascii "Paths", ascii "HLIndex", ascii "VIndex",
          ascii "Size64"] ∧
      readU32 bom (readU32 bom 16 + 4) = 0 ∧
      readU32 bom (readU32 bom 16 + 8) = 0 :=
  create_bom_header_shape [⟨[ascii "test.txt"], 0o100644, 0, 80, 5⟩]
    (by decide) (by decide)

/-! ### C5: the `BomInfo` path count -/

/-- The string keys of an `all_paths` accumulator. -/
def pathKeys (acc : List (List (List Nat) × Option BomEntry)) : List (List Nat) :=
  acc.map (fun pe => joinSlash pe.1)

/-- All prefix keys of all entries, in document order. -/
def allPrefixKeys (entries : List BomEntry) : List (List Nat) :=
  (entries.map (fun e => (componentPrefixes e.path).map joinSlash)).flatten

/-- Spec-side count: the number of distinct component prefixes across
all input paths (each prefix identified by its slash-joined string). -/
def distinctPrefixCount (entries : List BomEntry) : Nat :=
  (allPrefixKeys entries).dedup.length

theorem foldAdd_keys (e : BomEntry) :
    ∀ (pres : List (List (List Nat))) (acc : List (List (List Nat) × Option BomEntry)),
      (pathKeys acc).Nodup →
      (pathKeys (pres.foldl (fun acc pre =>
          if joinSlash pre ∈ acc.map (fun pe => joinSlash pe.1) then acc
          else acc ++
            [(pre, if joinSlash pre = joinSlash e.path then some e else none)]) acc)).Nodup ∧
      (pathKeys (pres.foldl (fun acc pre =>
          if joinSlash pre ∈ acc.map (fun pe => joinSlash pe.1) then acc
          else acc ++
            [(pre, if joinSlash pre = joinSlash e.path then some e else none)]) acc)).toFinset =
        (pathKeys acc).toFinset ∪ (pres.map joinSlash).toFinset := by
  intro pres
  induction pres with
  | nil =>
    intro acc h
    exact ⟨h, by simp⟩
  | cons pre pres ih =>
    intro acc h
    rw [List.foldl_cons]
    by_cases hmem : joinSlash pre ∈ acc.map (fun pe => joinSlash pe.1)
    · rw [if_pos hmem]
      obtain ⟨h1, h2⟩ := ih acc h
      refine ⟨h1, ?_⟩
      rw [h2]
      ext x
      simp only [List.map_cons, List.toFinset_cons, Finset.mem_union,
        Finset.mem_insert, List.mem_toFinset]
      constructor
      · rintro (hx | hx)
        · exact Or.inl hx
        · exact Or.inr (Or.inr hx)
      · rintro (hx | hx | hx)
        · exact Or.inl hx
        · exact Or.inl (hx ▸ hmem)
        · exact Or.inr hx
    · rw [if_neg hmem]
      have hkeys : pathKeys (acc ++
          [(pre, if joinSlash pre = joinSlash e.path then some e else none)]) =
          pathKeys acc ++ [joinSlash pre] := by
        simp [pathKeys]
      have hnodup : (pathKeys (acc ++
          [(pre, if joinSlash pre = joinSlash e.path then some e else none)])).Nodup := by
        rw [hkeys, List.nodup_append]
        exact ⟨h, List.nodup_singleton _, by
          intro x hx hx'
          rw [List.mem_singleton] at hx'
          subst hx'
          exact hmem hx⟩
      obtain ⟨h1, h2⟩ := ih _ hnodup
      refine ⟨h1, ?_⟩
      rw [h2, hkeys, List.toFinset_append]
      ext x
      simp
      tauto

theorem allPaths_keys :
    ∀ (entries : List BomEntry) (acc : List (List (List Nat) × Option BomEntry)),
      (pathKeys acc).Nodup →
      (pathKeys (entries.foldl addEntryPaths acc)).Nodup ∧
      (pathKeys (entries.foldl addEntryPaths acc)).toFinset =
        (pathKeys acc).toFinset ∪ (allPrefixKeys entries).toFinset := by
  intro entries
  induction entries with
  | nil =>
    intro acc h
    exact ⟨h, by simp [allPrefixKeys]⟩
  | cons e rest ih =>
    intro acc h
    rw [List.foldl_cons]
    obtain ⟨h1, h2⟩ := foldAdd_keys e (componentPrefixes e.path) acc h
    obtain ⟨h3, h4⟩ := ih (addEntryPaths acc e) (by rw [addEntryPaths]; exact h1)
    refine ⟨h3, ?_⟩
    rw [h4, show pathKeys (addEntryPaths acc e) = pathKeys ((componentPrefixes e.path).foldl
      (fun acc pre =>
        if joinSlash pre ∈ acc.map (fun pe => joinSlash pe.1) then acc
        else acc ++ [(pre, if joinSlash pre = joinSlash e.path then some e else none)]) acc)
      from rfl, h2]
    have : allPrefixKeys (e :: rest) =
        (componentPrefixes e.path).map joinSlash ++ allPrefixKeys rest := by
      simp [allPrefixKeys]
    rw [this, List.toFinset_append, Finset.union_assoc]

theorem allPaths_length (entries : List BomEntry)
    (hroot : [46] ∉ allPrefixKeys entries) :
    (allPaths entries).length = 1 + distinctPrefixCount entries := by
  have hinit : (pathKeys [([[46]], none)]).Nodup := by
    simp [pathKeys]
  obtain ⟨h1, h2⟩ := allPaths_keys entries [([[46]], none)] hinit
  have hlen : (allPaths entries).length = (pathKeys (allPaths entries)).length := by
    simp [pathKeys, allPaths]
  rw [hlen, allPaths, ← List.toFinset_card_of_nodup h1, h2]
  have hkeys0 : (pathKeys [([[46]], none)]).toFinset = {[46]} := by
    simp [pathKeys, joinSlash]
  rw [hkeys0]
  have hnotin : ([46] : List Nat) ∉ (allPrefixKeys entries).toFinset := by
    rw [List.mem_toFinset]
    exact hroot
  rw [show ({[46]} : Finset (List Nat)) ∪ (allPrefixKeys entries).toFinset =
      insert [46] (allPrefixKeys entries).toFinset from rfl,
    Finset.card_insert_of_not_mem hnotin, List.card_toFinset]
  rw [distinctPrefixCount]
  omega

theorem readU32_eq_drop (x : List Nat) (off : Nat) :
    readU32 x off = readU32 (x.drop off) 0 := by
  simp [readU32]

/-- The `numberOfPaths` field of the `BomInfo` block sits at byte 576
(512-byte header, 60-byte vars table, 4-byte `BomInfo` version). -/
theorem bomBuild_readU32_576 (entries : List BomEntry)
    (hn : (allPaths entries).length < 2 ^ 32) :
    readU32 (bomBuild (bomBlocks entries) (bomVars entries)) 576
      = (allPaths entries).length := by
  have h8 : (ascii "BOMStore").length = 8 := rfl
  have hgrp : bomBuild (bomBlocks entries) (bomVars entries) =
      (ascii "BOMStore" ++ be32 1 ++ be32 ((bomBlocks entries).length - 1) ++
        be32 (bomIndexOffset entries) ++
        be32 (bomBlockTable (bomBlocks entries)
          (512 + (bomVarsData (bomVars entries)).length)).length ++
        be32 512 ++ be32 (bomVarsData (bomVars entries)).length ++
        List.replicate 480 0) ++
      (bomVarsData (bomVars entries) ++
        (((bomBlocks entries).drop 1).flatten ++
          bomBlockTable (bomBlocks entries)
            (512 + (bomVarsData (bomVars entries)).length))) := by
    simp only [bomBuild_decomp, List.append_assoc]
  have hH : (ascii "BOMStore" ++ be32 1 ++ be32 ((bomBlocks entries).length - 1) ++
      be32 (bomIndexOffset entries) ++
      be32 (bomBlockTable (bomBlocks entries)
        (512 + (bomVarsData (bomVars entries)).length)).length ++
      be32 512 ++ be32 (bomVarsData (bomVars entries)).length ++
      List.replicate 480 0).length = 512 := by
    simp only [List.length_append, be32_length, h8, List.length_replicate]
  obtain ⟨tail2, htail2⟩ : ∃ t, bomBlocks entries =
      [] :: (bomInfoBytes (allPaths entries).length :: t) :=
    ⟨_, bomBlocks_head entries⟩
  rw [readU32_eq_drop, show (576 : Nat) = 512 + 64 from rfl, ← List.drop_drop, hgrp,
    List.drop_left' hH, show (64 : Nat) = 60 + 4 from rfl, ← List.drop_drop,
    List.drop_left' (bomVarsData_length entries), htail2]
  simp only [List.drop_succ_cons, List.drop_zero, List.flatten_cons, bomInfoBytes,
    List.append_assoc]
  rw [List.drop_left' (be32_length 1)]
  exact readU32_be32 _ _ hn

/-- C5: for every non-empty entry list (whose component prefixes never
collide with the root key `"."`), the `numberOfPaths` value written
into the `BomInfo` block equals 1 (the synthetic root) plus the number
of distinct component prefixes across all input paths; and for the
single entry `a/b/c/file.txt` that count is 5. -/
theorem create_bom_number_of_paths (entries : List BomEntry)
    (hne : entries ≠ [])
    (hroot : [46] ∉ allPrefixKeys entries)
    (hn : 1 + distinctPrefixCount entries < 2 ^ 32) :
    ∃ bom, create_bom entries = .ok bom ∧
      readU32 bom 576 = 1 + distinctPrefixCount entries ∧
      (allPaths [⟨[ascii "a", ascii "b", ascii "c", ascii "file.txt"],
        0o100644, 0, 80, 10⟩]).length = 5 := by
  refine ⟨bomBuild (bomBlocks entries) (bomVars entries),
    by rw [create_bom, if_neg (by simpa [List.isEmpty_iff] using hne)], ?_, by decide⟩
  rw [bomBuild_readU32_576 entries (by rw [allPaths_length entries hroot]; omega),
    allPaths_length entries hroot]

/-- Witness for C5 at the concrete entry `a/b/c/file.txt`: the stored
count is `1 + 4 = 5`. -/
theorem create_bom_number_of_paths_witness :
    ∃ bom, create_bom [⟨[ascii "a", ascii "b", ascii "c", ascii "file.txt"],
        0o100644, 0, 80, 10⟩] = .ok bom ∧
      readU32 bom 576 = 1 + distinctPrefixCount
        [⟨[ascii "a", ascii "b", ascii "c", ascii "file.txt"], 0o100644, 0, 80, 10⟩] ∧
      (allPaths [⟨[ascii "a", ascii "b", ascii "c", ascii "file.txt"],
        0o100644, 0, 80, 10⟩]).length = 5 :=
  create_bom_number_of_paths
    [⟨[ascii "a", ascii "b", ascii "c", ascii "file.txt"], 0o100644, 0, 80, 10⟩]
    (by decide) (by decide) (by decide)

/-! ### C6: the `PathInfo2` record layout -/

/-- C6 counterexample: the `PathInfo2` blocks `create_bom` emits are 31
bytes long, not 21 — already the single entry `test.txt` yields two
31-byte `PathInfo2` blocks (root and file). -/
theorem pathInfo2_length_not_21 :
    ((allPaths [⟨[ascii "test.txt"], 0o100644, 0, 80, 5⟩]).map
      (fun item => (pathInfo2Bytes item).length)) = [31, 31] ∧ ¬ (31 = 21) := by
  decide

/-- C6 (amended): every `PathInfo2` block emitted by `create_bom`, for
explicit entries and synthetic parent directories alike, is exactly
31 bytes, laid out as `u8 type` (2 for a directory), `u8 =1`,
`u16 arch=3`, `u16 mode` (lower 16 bits of the entry mode, file-type
bits kept), `u32 uid`, `u32 gid`, `u32 mtime=0`, `u32 size`, `u8 =1`,
`u32 checksum=0`, `u32 link_name_len=0`; a synthetic parent carries
type 2, mode `0o40755`, uid 0, gid 80, size 0. -/
theorem pathInfo2_layout (entries : List BomEntry)
    (item : List (List Nat) × Option BomEntry)
    (hmem : item ∈ allPaths entries) :
    (pathInfo2Bytes item).length = 31 ∧
    (pathInfo2Bytes item)[1]? = some 1 ∧
    readU16 (pathInfo2Bytes item) 2 = 3 ∧
    (pathInfo2Bytes item)[22]? = some 1 ∧
    readU32 (pathInfo2Bytes item) 14 = 0 ∧
    readU32 (pathInfo2Bytes item) 23 = 0 ∧
    readU32 (pathInfo2Bytes item) 27 = 0 ∧
    (∀ e, item.2 = some e →
      (pathInfo2Bytes item)[0]? =
        some (if e.mode &&& 0o170000 = 0o040000 then 2 else 1) ∧
      readU16 (pathInfo2Bytes item) 4 = e.mode % 2 ^ 16 ∧
      readU32 (pathInfo2Bytes item) 6 = e.uid % 2 ^ 32 ∧
      readU32 (pathInfo2Bytes item) 10 = e.gid % 2 ^ 32 ∧
      readU32 (pathInfo2Bytes item) 18 = e.size % 2 ^ 32) ∧
    (item.2 = none →
      (pathInfo2Bytes item)[0]? = some 2 ∧
      readU16 (pathInfo2Bytes item) 4 = 0o40755 ∧
      readU32 (pathInfo2Bytes item) 6 = 0 ∧
      readU32 (pathInfo2Bytes item) 10 = 80 ∧
      readU32 (pathInfo2Bytes item) 18 = 0) := by
  clear hmem
  obtain ⟨pre, oe⟩ := item
  cases oe with
  | none =>
    refine ⟨?_, ?_, ?_, ?_, ?_, ?_, ?_, ?_, ?_⟩ <;>
      simp [pathInfo2Bytes, be16, be32, readU16, readU32]
  | some e =>
    have hand : e.mode &&& 65535 = e.mode % 2 ^ 16 := by
      rw [show (65535 : Nat) = 2 ^ 16 - 1 by norm_num]
      exact Nat.and_pow_two_sub_one_eq_mod e.mode 16
    have hlt : e.mode &&& 65535 < 65536 :=
      Nat.lt_succ_of_le Nat.and_le_right
    by_cases hd : e.mode &&& 0o170000 = 0o040000 <;>
      refine ⟨?_, ?_, ?_, ?_, ?_, ?_, ?_, ?_, ?_⟩ <;>
        simp [pathInfo2Bytes, be16, be32, readU16, readU32, hd, ← hand] <;>
          omega

/-- Witness for the amended C6 at the synthetic root of a concrete
entry list. -/
theorem pathInfo2_layout_witness :
    (pathInfo2Bytes ([[46]], (none : Option BomEntry))).length = 31 ∧
    (pathInfo2Bytes ([[46]], (none : Option BomEntry)))[1]? = some 1 ∧
    readU16 (pathInfo2Bytes ([[46]], (none : Option BomEntry))) 2 = 3 ∧
    (pathInfo2Bytes ([[46]], (none : Option BomEntry)))[22]? = some 1 ∧
    readU32 (pathInfo2Bytes ([[46]], (none : Option BomEntry))) 14 = 0 ∧
    readU32 (pathInfo2Bytes ([[46]], (none : Option BomEntry))) 23 = 0 ∧
    readU32 (pathInfo2Bytes ([[46]], (none : Option BomEntry))) 27 = 0 ∧
    (∀ e, (([[46]], (none : Option BomEntry)) :
        List (List Nat) × Option BomEntry).2 = some e →
      (pathInfo2Bytes ([[46]], (none : Option BomEntry)))[0]? =
        some (if e.mode &&& 0o170000 = 0o040000 then 2 else 1) ∧
      readU16 (pathInfo2Bytes ([[46]], (none : Option BomEntry))) 4 = e.mode % 2 ^ 16 ∧
      readU32 (pathInfo2Bytes ([[46]], (none : Option BomEntry))) 6 = e.uid % 2 ^ 32 ∧
      readU32 (pathInfo2Bytes ([[46]], (none : Option BomEntry))) 10 = e.gid % 2 ^ 32 ∧
      readU32 (pathInfo2Bytes ([[46]], (none : Option BomEntry))) 18 = e.size % 2 ^ 32) ∧
    ((([[46]], (none : Option BomEntry)) :
        List (List Nat) × Option BomEntry).2 = none →
      (pathInfo2Bytes ([[46]], (none : Option BomEntry)))[0]? = some 2 ∧
      readU16 (pathInfo2Bytes ([[46]], (none : Option BomEntry))) 4 = 0o40755 ∧
      readU32 (pathInfo2Bytes ([[46]], (none : Option BomEntry))) 6 = 0 ∧
      readU32 (pathInfo2Bytes ([[46]], (none : Option BomEntry))) 10 = 80 ∧
      readU32 (pathInfo2Bytes ([[46]], (none : Option BomEntry))) 18 = 0) :=
  pathInfo2_layout [⟨[ascii "test.txt"], 0o100644, 0, 80, 5⟩]
    ([[46]], none) (by decide)

/-! ### C8: `generate_detection_xml` / `parse_detection_xml`
(`src/packager/metadata.rs`, `src/models/detection.rs`)

The emitter is `quick_xml::Writer` with 2-space indentation (a text event
is written inline and suppresses the line break before the following
event; every other event starts a fresh indented line; the first event
gets no leading newline) followed by the `\n → \r\n` replacement; the
parser is the `quick_xml::Reader` event loop of `parse_detection_xml`
with `trim_text(true)` (text events are trimmed and whitespace-only ones
dropped) and `BytesText::unescape`.  Writer, Reader and the XML 1.0
escaping of `BytesText::new` are external-crate behaviour and are
embedded character-wise for the document shapes this program emits.
Base64 is the external `base64` crate: it appears as an
encode/decode parameter pair constrained by its contract on the five
secret values (decode inverts encode; the standard alphabet contains no
XML-special and no whitespace characters, here `textSafeB`). -/

def aposChar : Char := Char.ofNat 39

def quotChar : Char := Char.ofNat 34

def isWS (c : Char) : Bool :=
  c = ' ' || c = '\t' || c = '\r' || c = '\n'

def trimChars (s : List Char) : List Char :=
  ((s.dropWhile isWS).reverse.dropWhile isWS).reverse

def escapeChar (c : Char) : List Char :=
  if c = '&' then ['&', 'a', 'm', 'p', ';']
  else if c = '<' then ['&', 'l', 't', ';']
  else if c = '>' then ['&', 'g', 't', ';']
  else if c = aposChar then ['&', 'a', 'p', 'o', 's', ';']
  else if c = quotChar then ['&', 'q', 'u', 'o', 't', ';']
  else [c]

def escape (s : List Char) : List Char := s.flatMap escapeChar

def unescapeAux : Nat → List Char → Option (List Char)
  | 0, [] => some []
  | 0, _ :: _ => none
  | _ + 1, [] => some []
  | fuel + 1, c :: rest =>
    if c = '&' then
      if rest.take 4 = ['a', 'm', 'p', ';'] then
        (unescapeAux fuel (rest.drop 4)).map ('&' :: ·)
      else if rest.take 3 = ['l', 't', ';'] then
        (unescapeAux fuel (rest.drop 3)).map ('<' :: ·)
      else if rest.take 3 = ['g', 't', ';'] then
        (unescapeAux fuel (rest.drop 3)).map ('>' :: ·)
      else if rest.take 5 = ['a', 'p', 'o', 's', ';'] then
        (unescapeAux fuel (rest.drop 5)).map (aposChar :: ·)
      else if rest.take 5 = ['q', 'u', 'o', 't', ';'] then
        (unescapeAux fuel (rest.drop 5)).map (quotChar :: ·)
      else none
    else (unescapeAux fuel rest).map (c :: ·)

def unescape (s : List Char) : Option (List Char) :=
  unescapeAux s.length s

def crlf (s : List Char) : List Char :=
  s.flatMap (fun c => if c = '\n' then ['\r', '\n'] else [c])

def natCharsAux : Nat → Nat → List Char
  | 0, _ => []
  | fuel + 1, n =>
    if n < 10 then [Char.ofNat (48 + n)]
    else natCharsAux fuel (n / 10) ++ [Char.ofNat (48 + n % 10)]

def natChars (n : Nat) : List Char := natCharsAux (n + 1) n

def parseNatChars (s : List Char) : Option Nat :=
  if s ≠ [] ∧ s.all (fun c => 48 ≤ c.toNat && c.toNat ≤ 57) then
    if s.foldl (fun a c => a * 10 + (c.toNat - 48)) 0 < 2 ^ 64 then
      some (s.foldl (fun a c => a * 10 + (c.toNat - 48)) 0)
    else none
  else none

theorem char_ofNat_toNat (n : Nat) (h : n < 55296) : (Char.ofNat n).toNat = n := by
  have hv : Nat.isValidChar n := Or.inl h
  rw [Char.ofNat, dif_pos hv]
  rfl

theorem natCharsAux_spec (fuel : Nat) : ∀ n, n < fuel →
    natCharsAux fuel n ≠ [] ∧
    (natCharsAux fuel n).all (fun c => 48 ≤ c.toNat && c.toNat ≤ 57) = true ∧
    ∀ a, (natCharsAux fuel n).foldl (fun a c => a * 10 + (c.toNat - 48)) a =
      a * 10 ^ (natCharsAux fuel n).length + n := by
  induction fuel with
  | zero => intro n hn; omega
  | succ f ih =>
    intro n hn
    by_cases h10 : n < 10
    · have hd : (Char.ofNat (48 + n)).toNat = 48 + n :=
        char_ofNat_toNat _ (by omega)
      refine ⟨by simp [natCharsAux, h10], ?_, ?_⟩
      · simp [natCharsAux, h10, hd]
        omega
      · intro a
        simp [natCharsAux, h10, hd]
    · have hrec : n / 10 < f := by
        have := Nat.div_lt_self (by omega : 0 < n) (by omega : 1 < 10)
        omega
      obtain ⟨hne, hall, hfold⟩ := ih (n / 10) hrec
      have hd : (Char.ofNat (48 + n % 10)).toNat = 48 + n % 10 :=
        char_ofNat_toNat _ (by have := Nat.mod_lt n (show 0 < 10 by omega); omega)
      refine ⟨by simp [natCharsAux, h10], ?_, ?_⟩
      · have hm := Nat.mod_lt n (show 0 < 10 by omega)
        simp only [natCharsAux, if_neg h10, List.all_append, hall, List.all_cons,
          List.all_nil, hd, Bool.and_true, Bool.true_and, Bool.and_eq_true,
          decide_eq_true_eq]
        all_goals omega
      · intro a
        simp only [natCharsAux, if_neg h10, List.foldl_append, hfold,
          List.foldl_cons, List.foldl_nil, hd, List.length_append,
          List.length_cons, List.length_nil]
        have h1 : (a * 10 ^ (natCharsAux f (n / 10)).length + n / 10) * 10 +
            (48 + n % 10 - 48) =
            a * (10 ^ (natCharsAux f (n / 10)).length * 10) + (n / 10 * 10 + n % 10) := by
          ring_nf
          omega
        rw [h1]
        simp only [Nat.zero_add, pow_succ]
        congr 1
        omega

theorem parseNat_natChars (n : Nat) (hn : n < 2 ^ 64) :
    parseNatChars (natChars n) = some n := by
  obtain ⟨hne, hall, hfold⟩ := natCharsAux_spec (n + 1) n (Nat.lt_succ_self n)
  rw [natChars, parseNatChars, if_pos ⟨hne, hall⟩, hfold 0]
  simp only [Nat.zero_mul, Nat.zero_add]
  rw [if_pos hn]

theorem escapeChar_ne_nil (c : Char) : escapeChar c ≠ [] := by
  unfold escapeChar
  split_ifs <;> simp

theorem escape_eq_nil_iff (s : List Char) : escape s = [] ↔ s = [] := by
  cases s with
  | nil => simp [escape]
  | cons c xs =>
    simp only [escape, List.flatMap_cons]
    constructor
    · intro h
      exact absurd (List.append_eq_nil.mp h).1 (escapeChar_ne_nil c)
    · intro h; exact absurd h (by simp)

theorem unescapeAux_nil (f : Nat) : unescapeAux f [] = some [] := by
  cases f <;> rfl

theorem unescapeAux_amp (f : Nat) (t : List Char) :
    unescapeAux (f + 1) ('&' :: 'a' :: 'm' :: 'p' :: ';' :: t) =
      (unescapeAux f t).map ('&' :: ·) := rfl

theorem unescapeAux_lt (f : Nat) (t : List Char) :
    unescapeAux (f + 1) ('&' :: 'l' :: 't' :: ';' :: t) =
      (unescapeAux f t).map ('<' :: ·) := rfl

theorem unescapeAux_gt (f : Nat) (t : List Char) :
    unescapeAux (f + 1) ('&' :: 'g' :: 't' :: ';' :: t) =
      (unescapeAux f t).map ('>' :: ·) := rfl

theorem unescapeAux_apos (f : Nat) (t : List Char) :
    unescapeAux (f + 1) ('&' :: 'a' :: 'p' :: 'o' :: 's' :: ';' :: t) =
      (unescapeAux f t).map (aposChar :: ·) := rfl

theorem unescapeAux_quot (f : Nat) (t : List Char) :
    unescapeAux (f + 1) ('&' :: 'q' :: 'u' :: 'o' :: 't' :: ';' :: t) =
      (unescapeAux f t).map (quotChar :: ·) := rfl

theorem unescapeAux_other (f : Nat) (c : Char) (t : List Char) (h : ¬c = '&') :
    unescapeAux (f + 1) (c :: t) = (unescapeAux f t).map (c :: ·) := by
  simp only [unescapeAux, if_neg h]

theorem unescapeAux_escape (s : List Char) : ∀ fuel, (escape s).length ≤ fuel →
    unescapeAux fuel (escape s) = some s := by
  induction s with
  | nil =>
    intro fuel _
    simp only [escape, List.flatMap_nil, unescapeAux_nil]
  | cons c s ih =>
    intro fuel hf
    rw [show escape (c :: s) = escapeChar c ++ escape s from by simp [escape]] at hf ⊢
    by_cases h1 : c = '&'
    · subst h1
      rw [show escapeChar '&' = ['&', 'a', 'm', 'p', ';'] from rfl] at hf ⊢
      cases fuel with
      | zero => simp at hf
      | succ f =>
        rw [List.cons_append, List.cons_append, List.cons_append, List.cons_append,
          List.cons_append, List.nil_append, unescapeAux_amp,
          ih f (by simp at hf ⊢; omega)]
        rfl
    by_cases h2 : c = '<'
    · subst h2
      rw [show escapeChar '<' = ['&', 'l', 't', ';'] from rfl] at hf ⊢
      cases fuel with
      | zero => simp at hf
      | succ f =>
        rw [List.cons_append, List.cons_append, List.cons_append, List.cons_append,
          List.nil_append, unescapeAux_lt, ih f (by simp at hf ⊢; omega)]
        rfl
    by_cases h3 : c = '>'
    · subst h3
      rw [show escapeChar '>' = ['&', 'g', 't', ';'] from rfl] at hf ⊢
      cases fuel with
      | zero => simp at hf
      | succ f =>
        rw [List.cons_append, List.cons_append, List.cons_append, List.cons_append,
          List.nil_append, unescapeAux_gt, ih f (by simp at hf ⊢; omega)]
        rfl
    by_cases h4 : c = aposChar
    · subst h4
      rw [show escapeChar aposChar = ['&', 'a', 'p', 'o', 's', ';'] from rfl] at hf ⊢
      cases fuel with
      | zero => simp at hf
      | succ f =>
        rw [List.cons_append, List.cons_append, List.cons_append, List.cons_append,
          List.cons_append, List.cons_append, List.nil_append, unescapeAux_apos,
          ih f (by simp at hf ⊢; omega)]
        rfl
    by_cases h5 : c = quotChar
    · subst h5
      rw [show escapeChar quotChar = ['&', 'q', 'u', 'o', 't', ';'] from rfl] at hf ⊢
      cases fuel with
      | zero => simp at hf
      | succ f =>
        rw [List.cons_append, List.cons_append, List.cons_append, List.cons_append,
          List.cons_append, List.cons_append, List.nil_append, unescapeAux_quot,
          ih f (by simp at hf ⊢; omega)]
        rfl
    · have hec : escapeChar c = [c] := by
        unfold escapeChar
        rw [if_neg h1, if_neg h2, if_neg h3, if_neg h4, if_neg h5]
      rw [hec] at hf ⊢
      cases fuel with
      | zero => simp at hf
      | succ f =>
        rw [List.cons_append, List.nil_append, unescapeAux_other f c _ h1,
          ih f (by simp at hf ⊢; omega)]
        rfl

theorem unescape_escape (s : List Char) : unescape (escape s) = some s :=
  unescapeAux_escape s _ le_rfl

def textSafeB (s : List Char) : Bool :=
  s.head?.all (fun c => !isWS c) && s.getLast?.all (fun c => !isWS c) &&
    s.all (fun c => !(c == '\n'))

theorem trimChars_eq_self (s : List Char)
    (hh : s.head?.all (fun c => !isWS c) = true)
    (hl : s.getLast?.all (fun c => !isWS c) = true) :
    trimChars s = s := by
  have h1 : s.dropWhile isWS = s := by
    cases s with
    | nil => rfl
    | cons c xs =>
      simp only [List.head?_cons, Option.all_some] at hh
      rw [List.dropWhile_cons, if_neg (by simp_all)]
  have h2 : s.reverse.dropWhile isWS = s.reverse := by
    cases hrev : s.reverse with
    | nil => rfl
    | cons c xs =>
      have hgl : s.getLast? = some c := by
        rw [← List.head?_reverse, hrev, List.head?_cons]
      rw [hgl, Option.all_some] at hl
      rw [List.dropWhile_cons, if_neg (by simp_all)]
  rw [trimChars, h1, h2, List.reverse_reverse]

theorem trimChars_eq_nil (s : List Char) (h : s.all isWS = true) :
    trimChars s = [] := by
  have h1 : s.dropWhile isWS = [] := by
    rw [List.dropWhile_eq_nil_iff]
    intro x hx
    exact List.all_eq_true.mp h x hx
  rw [trimChars, h1]
  rfl

theorem escapeChar_head (c : Char) :
    (escapeChar c).head? = some '&' ∨ escapeChar c = [c] := by
  unfold escapeChar
  split_ifs <;> first | (left; rfl) | (right; rfl)

theorem escapeChar_getLast (c : Char) :
    (escapeChar c).getLast? = some ';' ∨ escapeChar c = [c] := by
  unfold escapeChar
  split_ifs <;> first | (left; rfl) | (right; rfl)

theorem escape_head_all (s : List Char)
    (hh : s.head?.all (fun c => !isWS c) = true) :
    (escape s).head?.all (fun c => !isWS c) = true := by
  cases s with
  | nil => rfl
  | cons c xs =>
    rw [show escape (c :: xs) = escapeChar c ++ escape xs from by simp [escape]]
    rcases escapeChar_head c with h | h
    · cases hec : escapeChar c with
      | nil => exact absurd hec (escapeChar_ne_nil c)
      | cons d t =>
        rw [hec, List.head?_cons] at h
        rw [List.cons_append, List.head?_cons, Option.all_some]
        rw [Option.some.injEq] at h
        subst h
        decide
    · rw [h, List.cons_append, List.nil_append, List.head?_cons, Option.all_some]
      rw [List.head?_cons, Option.all_some] at hh
      exact hh

theorem escape_getLast_all (s : List Char)
    (hl : s.getLast?.all (fun c => !isWS c) = true) :
    (escape s).getLast?.all (fun c => !isWS c) = true := by
  induction s with
  | nil => rfl
  | cons c xs ih =>
    rw [show escape (c :: xs) = escapeChar c ++ escape xs from by simp [escape]]
    cases xs with
    | nil =>
      rw [show escape [] = [] from rfl, List.append_nil]
      rcases escapeChar_getLast c with h | h
      · rw [h, Option.all_some]
        decide
      · rw [h]
        exact hl
    | cons y ys =>
      have hne : escape (y :: ys) ≠ [] := by
        rw [Ne, escape_eq_nil_iff]
        simp
      rw [List.getLast?_append_of_ne_nil _ hne]
      rw [List.getLast?_cons_cons] at hl
      exact ih hl

theorem trimChars_escape (s : List Char)
    (hh : s.head?.all (fun c => !isWS c) = true)
    (hl : s.getLast?.all (fun c => !isWS c) = true) :
    trimChars (escape s) = escape s :=
  trimChars_eq_self _ (escape_head_all s hh) (escape_getLast_all s hl)

theorem crlf_append (a b : List Char) : crlf (a ++ b) = crlf a ++ crlf b := by
  simp [crlf]

theorem crlf_of_no_lf (s : List Char) (h : s.all (fun c => !(c == '\n')) = true) :
    crlf s = s := by
  induction s with
  | nil => rfl
  | cons c xs ih =>
    simp only [List.all_cons, Bool.and_eq_true] at h
    simp only [crlf, List.flatMap_cons]
    rw [if_neg (by simpa using h.1)]
    have := ih h.2
    simp only [crlf] at this
    rw [this, List.singleton_append]

inductive XmlToken where
  | tStart (nm : List Char)
  | tEnd (nm : List Char)
  | tText (raw : List Char)
deriving DecidableEq

def tokenizeAux : Nat → List Char → List XmlToken
  | 0, _ => []
  | _ + 1, [] => []
  | fuel + 1, c :: rest =>
    if c = '<' then
      let body := rest.takeWhile (fun d => !(d == '>'))
      let rest2 := (rest.dropWhile (fun d => !(d == '>'))).drop 1
      match body with
      | '/' :: nm => XmlToken.tEnd nm :: tokenizeAux fuel rest2
      | _ => XmlToken.tStart (body.takeWhile (fun d => !(d == ' '))) ::
          tokenizeAux fuel rest2
    else
      XmlToken.tText ((c :: rest).takeWhile (fun d => !(d == '<'))) ::
        tokenizeAux fuel ((c :: rest).dropWhile (fun d => !(d == '<')))

def tokenize (s : List Char) : List XmlToken := tokenizeAux s.length s

theorem takeWhile_append_of_all {p : Char → Bool} (l l' : List Char)
    (h : l.all p = true) : (l ++ l').takeWhile p = l ++ l'.takeWhile p := by
  induction l with
  | nil => simp
  | cons c xs ih =>
    simp only [List.all_cons, Bool.and_eq_true] at h
    rw [List.cons_append, List.takeWhile_cons, if_pos h.1, ih h.2]
    rfl

theorem dropWhile_append_of_all {p : Char → Bool} (l l' : List Char)
    (h : l.all p = true) : (l ++ l').dropWhile p = l'.dropWhile p := by
  induction l with
  | nil => simp
  | cons c xs ih =>
    simp only [List.all_cons, Bool.and_eq_true] at h
    rw [List.cons_append, List.dropWhile_cons, if_pos h.1, ih h.2]

theorem tokenizeAux_nil (f : Nat) : tokenizeAux f [] = [] := by
  cases f <;> rfl

theorem tokenizeAux_text (f : Nat) (w r : List Char) (hw : w ≠ [])
    (hall : w.all (fun d => !(d == '<')) = true) :
    tokenizeAux (f + 1) (w ++ '<' :: r) =
      XmlToken.tText w :: tokenizeAux f ('<' :: r) := by
  cases w with
  | nil => exact absurd rfl hw
  | cons c w' =>
    have hc : ¬c = '<' := by
      simp only [List.all_cons, Bool.and_eq_true] at hall
      simpa using hall.1
    rw [List.cons_append, tokenizeAux, if_neg hc]
    rw [show (c :: (w' ++ '<' :: r)) = (c :: w') ++ '<' :: r from rfl]
    rw [takeWhile_append_of_all _ _ hall, dropWhile_append_of_all _ _ hall]
    rw [List.takeWhile_cons, List.dropWhile_cons]
    rw [if_neg (by simp), if_neg (by simp)]
    rw [List.append_nil]

theorem tokenizeAux_start (f : Nat) (tag r : List Char)
    (htag : tag.all (fun d => !(d == '>')) = true)
    (hne : tag ≠ []) (hhd : tag.head? ≠ some '/') :
    tokenizeAux (f + 1) ('<' :: (tag ++ '>' :: r)) =
      XmlToken.tStart (tag.takeWhile (fun d => !(d == ' '))) :: tokenizeAux f r := by
  rw [tokenizeAux, if_pos rfl]
  rw [takeWhile_append_of_all _ _ htag, dropWhile_append_of_all _ _ htag]
  rw [List.takeWhile_cons, List.dropWhile_cons]
  rw [if_neg (by simp), if_neg (by simp)]
  rw [List.append_nil, List.drop_succ_cons, List.drop_zero]
  dsimp only
  split
  next nm =>
    simp at hhd
  next => rfl

theorem tokenizeAux_end (f : Nat) (tag r : List Char)
    (htag : tag.all (fun d => !(d == '>')) = true) :
    tokenizeAux (f + 1) ('<' :: '/' :: (tag ++ '>' :: r)) =
      XmlToken.tEnd tag :: tokenizeAux f r := by
  rw [tokenizeAux, if_pos rfl]
  rw [List.takeWhile_cons, List.dropWhile_cons]
  rw [if_pos (by simp), if_pos (by simp)]
  rw [takeWhile_append_of_all _ _ htag, dropWhile_append_of_all _ _ htag]
  rw [List.takeWhile_cons, List.dropWhile_cons]
  rw [if_neg (by simp), if_neg (by simp)]
  rw [List.append_nil, List.drop_succ_cons, List.drop_zero]
  dsimp only
  split
  next nm heq =>
    injection heq with h1 h2
    subst h2
    rfl
  next h => exact absurd rfl (h tag)

def wsRun (ind : Nat) : List Char := '\r' :: '\n' :: List.replicate ind ' '

inductive Chunk where
  | elemC (ind : Nat) (tag content : List Char)
  | openC (ind : Nat) (tag : List Char)
  | closeC (ind : Nat) (tag : List Char)

def renderChunk : Chunk → List Char
  | .elemC ind tag content =>
      wsRun ind ++ '<' :: (tag ++ '>' :: (content ++ '<' :: '/' :: (tag ++ ['>'])))
  | .openC ind tag => wsRun ind ++ '<' :: (tag ++ ['>'])
  | .closeC ind tag => wsRun ind ++ '<' :: '/' :: (tag ++ ['>'])

def chunkTokens : Chunk → List XmlToken
  | .elemC ind tag content =>
      XmlToken.tText (wsRun ind) :: XmlToken.tStart tag ::
        (if content = [] then [XmlToken.tEnd tag]
         else [XmlToken.tText content, XmlToken.tEnd tag])
  | .openC ind tag => [XmlToken.tText (wsRun ind), XmlToken.tStart tag]
  | .closeC ind tag => [XmlToken.tText (wsRun ind), XmlToken.tEnd tag]

def tagOK (tag : List Char) : Bool :=
  !tag.isEmpty && !(tag.head? == some '/') &&
    tag.all (fun d => !(d == '>') && !(d == '<') && !(d == ' '))

def contentOK (content : List Char) : Bool :=
  content.all (fun d => !(d == '<'))

def chunkOK : Chunk → Bool
  | .elemC _ tag content => tagOK tag && contentOK content
  | .openC _ tag => tagOK tag
  | .closeC _ tag => tagOK tag

theorem takeWhile_eq_self_of_all {p : Char → Bool} (l : List Char)
    (h : l.all p = true) : l.takeWhile p = l := by
  induction l with
  | nil => rfl
  | cons c xs ih =>
    simp only [List.all_cons, Bool.and_eq_true] at h
    rw [List.takeWhile_cons, if_pos h.1, ih h.2]

theorem wsRun_not_lt (ind : Nat) :
    (wsRun ind).all (fun d => !(d == '<')) = true := by
  simp [wsRun, List.all_replicate]

theorem wsRun_isWS (ind : Nat) : (wsRun ind).all isWS = true := by
  simp [wsRun, List.all_replicate, isWS]

theorem tagOK_props (tag : List Char) (h : tagOK tag = true) :
    tag ≠ [] ∧ tag.head? ≠ some '/' ∧ tag.all (fun d => !(d == '>')) = true ∧
      tag.all (fun d => !(d == ' ')) = true := by
  simp only [tagOK, Bool.and_eq_true, Bool.not_eq_true', beq_eq_false_iff_ne,
    Ne, List.all_eq_true, Bool.and_eq_true] at h ⊢
  obtain ⟨⟨h1, h2⟩, h3⟩ := h
  refine ⟨?_, h2, fun x hx => ((h3 x hx).1).1, fun x hx => (h3 x hx).2⟩
  intro hc
  rw [hc] at h1
  simp at h1

theorem tokenizeAux_openChunk (f ind : Nat) (tag r : List Char)
    (hok : tagOK tag = true) :
    tokenizeAux (f + 2) (wsRun ind ++ '<' :: (tag ++ '>' :: r)) =
      XmlToken.tText (wsRun ind) :: XmlToken.tStart tag :: tokenizeAux f r := by
  obtain ⟨hne, hhd, hgt, hsp⟩ := tagOK_props tag hok
  rw [show f + 2 = (f + 1) + 1 from rfl,
    tokenizeAux_text (f + 1) _ _ (by simp [wsRun]) (wsRun_not_lt ind),
    tokenizeAux_start f tag r hgt hne hhd, takeWhile_eq_self_of_all tag hsp]

theorem tokenizeAux_closeChunk (f ind : Nat) (tag r : List Char)
    (hok : tagOK tag = true) :
    tokenizeAux (f + 2) (wsRun ind ++ '<' :: '/' :: (tag ++ '>' :: r)) =
      XmlToken.tText (wsRun ind) :: XmlToken.tEnd tag :: tokenizeAux f r := by
  obtain ⟨hne, hhd, hgt, hsp⟩ := tagOK_props tag hok
  rw [show f + 2 = (f + 1) + 1 from rfl,
    tokenizeAux_text (f + 1) _ _ (by simp [wsRun]) (wsRun_not_lt ind),
    tokenizeAux_end f tag r hgt]

theorem tokenizeAux_elemChunk_nil (f ind : Nat) (tag r : List Char)
    (hok : tagOK tag = true) :
    tokenizeAux (f + 3) (wsRun ind ++ '<' :: (tag ++ '>' :: ('<' :: '/' :: (tag ++ '>' :: r)))) =
      XmlToken.tText (wsRun ind) :: XmlToken.tStart tag :: XmlToken.tEnd tag ::
        tokenizeAux f r := by
  obtain ⟨hne, hhd, hgt, hsp⟩ := tagOK_props tag hok
  rw [show f + 3 = (f + 2) + 1 from rfl,
    tokenizeAux_text (f + 2) _ _ (by simp [wsRun]) (wsRun_not_lt ind),
    show f + 2 = (f + 1) + 1 from rfl,
    tokenizeAux_start (f + 1) tag _ hgt hne hhd,
    takeWhile_eq_self_of_all tag hsp,
    tokenizeAux_end f tag r hgt]

theorem tokenizeAux_elemChunk (f ind : Nat) (tag content r : List Char)
    (hok : tagOK tag = true) (hcne : content ≠ [])
    (hcontent : contentOK content = true) :
    tokenizeAux (f + 4)
        (wsRun ind ++ '<' :: (tag ++ '>' :: (content ++ '<' :: '/' :: (tag ++ '>' :: r)))) =
      XmlToken.tText (wsRun ind) :: XmlToken.tStart tag :: XmlToken.tText content ::
        XmlToken.tEnd tag :: tokenizeAux f r := by
  obtain ⟨hne, hhd, hgt, hsp⟩ := tagOK_props tag hok
  rw [show f + 4 = (f + 3) + 1 from rfl,
    tokenizeAux_text (f + 3) _ _ (by simp [wsRun]) (wsRun_not_lt ind),
    show f + 3 = (f + 2) + 1 from rfl,
    tokenizeAux_start (f + 2) tag _ hgt hne hhd,
    takeWhile_eq_self_of_all tag hsp,
    show f + 2 = (f + 1) + 1 from rfl,
    tokenizeAux_text (f + 1) content _ hcne hcontent,
    tokenizeAux_end f tag r hgt]

theorem tokenizeAux_chunks (cs : List Chunk) (hok : ∀ c ∈ cs, chunkOK c = true) :
    ∀ fuel, ((cs.map renderChunk).flatten).length ≤ fuel →
      tokenizeAux fuel ((cs.map renderChunk).flatten) =
        (cs.map chunkTokens).flatten := by
  induction cs with
  | nil =>
    intro fuel _
    simp [tokenizeAux_nil]
  | cons c cs ih =>
    intro fuel hf
    have hokc := hok c (List.mem_cons_self _ _)
    have hoks : ∀ x ∈ cs, chunkOK x = true :=
      fun x hx => hok x (List.mem_cons.mpr (Or.inr hx))
    rw [List.map_cons, List.map_cons, List.flatten_cons, List.flatten_cons]
    cases c with
    | elemC ind tag content =>
      simp only [chunkOK, Bool.and_eq_true] at hokc
      simp only [renderChunk, chunkTokens, List.append_assoc, List.cons_append,
        List.nil_append] at hf ⊢
      by_cases hc : content = []
      · subst hc
        simp only [List.nil_append] at hf ⊢
        rw [if_pos trivial]
        obtain ⟨f, rfl⟩ : ∃ f, fuel = f + 3 :=
          ⟨fuel - 3, by simp [renderChunk, wsRun] at hf; omega⟩
        rw [tokenizeAux_elemChunk_nil f ind tag _ hokc.1,
          ih hoks f (by simp [renderChunk, wsRun] at hf ⊢; omega)]
        simp only [List.cons_append, List.nil_append]
      · rw [if_neg hc]
        obtain ⟨f, rfl⟩ : ∃ f, fuel = f + 4 :=
          ⟨fuel - 4, by
            simp [renderChunk, wsRun] at hf
            have : content.length ≥ 1 := by
              cases content with
              | nil => exact absurd rfl hc
              | cons x xs => simp
            omega⟩
        rw [tokenizeAux_elemChunk f ind tag content _ hokc.1 hc hokc.2,
          ih hoks f (by simp [renderChunk, wsRun] at hf ⊢; omega)]
        simp only [List.cons_append, List.nil_append]
    | openC ind tag =>
      simp only [chunkOK] at hokc
      simp only [renderChunk, chunkTokens, List.append_assoc, List.cons_append,
        List.nil_append] at hf ⊢
      obtain ⟨f, rfl⟩ : ∃ f, fuel = f + 2 :=
        ⟨fuel - 2, by simp [renderChunk, wsRun] at hf; omega⟩
      rw [tokenizeAux_openChunk f ind tag _ hokc,
        ih hoks f (by simp [renderChunk, wsRun] at hf ⊢; omega)]
    | closeC ind tag =>
      simp only [chunkOK] at hokc
      simp only [renderChunk, chunkTokens, List.append_assoc, List.cons_append,
        List.nil_append] at hf ⊢
      obtain ⟨f, rfl⟩ : ∃ f, fuel = f + 2 :=
        ⟨fuel - 2, by simp [renderChunk, wsRun] at hf; omega⟩
      rw [tokenizeAux_closeChunk f ind tag _ hokc,
        ih hoks f (by simp [renderChunk, wsRun] at hf ⊢; omega)]

structure DetectionMetadata where
  name : List Char
  unencrypted_content_size : Nat
  file_name : List Char
  setup_file : List Char
  encryption_info : EncryptionInfo
deriving DecidableEq

structure ParseState where
  current_element : List Char
  name : List Char
  unencrypted_content_size : Nat
  file_name : List Char
  setup_file : List Char
  encryption_info : EncryptionInfo

def dispatchText (dec : List Char → Option (List Nat)) (st : ParseState)
    (text : List Char) : Except PackageError ParseState :=
  if st.current_element = "Name".toList then .ok { st with name := text }
  else if st.current_element = "UnencryptedContentSize".toList then
    match parseNatChars text with
    | some n => .ok { st with unencrypted_content_size := n }
    | none => .error (.XmlError "Invalid UnencryptedContentSize")
  else if st.current_element = "FileName".toList then .ok { st with file_name := text }
  else if st.current_element = "SetupFile".toList then .ok { st with setup_file := text }
  else if st.current_element = "EncryptionKey".toList then
    match dec text with
    | some b =>
      if b.length = 32 then
        .ok { st with encryption_info := { st.encryption_info with encryption_key := b } }
      else .error (.XmlError "Encryption key must be 32 bytes")
    | none => .error (.XmlError "Invalid Base64 for encryption key")
  else if st.current_element = "MacKey".toList then
    match dec text with
    | some b =>
      if b.length = 32 then
        .ok { st with encryption_info := { st.encryption_info with mac_key := b } }
      else .error (.XmlError "MAC key must be 32 bytes")
    | none => .error (.XmlError "Invalid Base64 for MAC key")
  else if st.current_element = "InitializationVector".toList then
    match dec text with
    | some b =>
      if b.length = 16 then
        .ok { st with encryption_info := { st.encryption_info with iv := b } }
      else .error (.XmlError "IV must be 16 bytes")
    | none => .error (.XmlError "Invalid Base64 for IV")
  else if st.current_element = "Mac".toList then
    match dec text with
    | some b =>
      if b.length = 32 then
        .ok { st with encryption_info := { st.encryption_info with mac := b } }
      else .error (.XmlError "MAC must be 32 bytes")
    | none => .error (.XmlError "Invalid Base64 for MAC")
  else if st.current_element = "ProfileIdentifier".toList then
    .ok { st with encryption_info := { st.encryption_info with profile_identifier := text } }
  else if st.current_element = "FileDigest".toList then
    match dec text with
    | some b =>
      if b.length = 32 then
        .ok { st with encryption_info := { st.encryption_info with file_digest := b } }
      else .error (.XmlError "File digest must be 32 bytes")
    | none => .error (.XmlError "Invalid Base64 for file digest")
  else if st.current_element = "FileDigestAlgorithm".toList then
    .ok { st with encryption_info := { st.encryption_info with file_digest_algorithm := text } }
  else .ok st

def parseStep (dec : List Char → Option (List Nat)) (st : ParseState) :
    XmlToken → Except PackageError ParseState
  | .tStart nm => .ok { st with current_element := nm }
  | .tEnd _ => .ok { st with current_element := [] }
  | .tText raw =>
    let t := trimChars raw
    if t = [] then .ok st
    else
      match unescape t with
      | some text => dispatchText dec st text
      | none => .error (.XmlError "Failed to unescape text")

def runParse (dec : List Char → Option (List Nat)) :
    ParseState → List XmlToken → Except PackageError ParseState
  | st, [] => .ok st
  | st, t :: ts =>
    match parseStep dec st t with
    | .ok st2 => runParse dec st2 ts
    | .error e => .error e

def initState : ParseState :=
  { current_element := [], name := [], unencrypted_content_size := 0,
    file_name := [], setup_file := [], encryption_info := EncryptionInfo.new }

def parse_detection_xml (dec : List Char → Option (List Nat)) (xml : List Char) :
    Except PackageError DetectionMetadata :=
  match runParse dec initState (tokenize xml) with
  | .error e => .error e
  | .ok st =>
    if st.name = [] then .error (.XmlError "Missing Name element")
    else if st.setup_file = [] then .error (.XmlError "Missing SetupFile element")
    else .ok { name := st.name, unencrypted_content_size := st.unencrypted_content_size,
               file_name := st.file_name, setup_file := st.setup_file,
               encryption_info := st.encryption_info }

def rootBodyChars : List Char :=
  "ApplicationInfo xmlns:xsd=\"http://www.w3.org/2001/XMLSchema\" xmlns:xsi=\"http://www.w3.org/2001/XMLSchema-instance\" ToolVersion=\"1.8.6.0\"".toList

def rootStartTag : List Char := '<' :: (rootBodyChars ++ ['>'])

def elementLine (ind : Nat) (tag content : List Char) : List Char :=
  '\n' :: (List.replicate ind ' ' ++
    '<' :: (tag ++ '>' :: (content ++ '<' :: '/' :: (tag ++ ['>']))))

def openLine (ind : Nat) (tag : List Char) : List Char :=
  '\n' :: (List.replicate ind ' ' ++ '<' :: (tag ++ ['>']))

def closeLine (ind : Nat) (tag : List Char) : List Char :=
  '\n' :: (List.replicate ind ' ' ++ '<' :: '/' :: (tag ++ ['>']))

def generate_detection_xml (enc : List Nat → List Char) (m : DetectionMetadata) :
    List Char :=
  crlf (rootStartTag
    ++ elementLine 2 "Name".toList (escape m.name)
    ++ elementLine 2 "UnencryptedContentSize".toList
        (escape (natChars m.unencrypted_content_size))
    ++ elementLine 2 "FileName".toList (escape m.file_name)
    ++ elementLine 2 "SetupFile".toList (escape m.setup_file)
    ++ openLine 2 "EncryptionInfo".toList
    ++ elementLine 4 "EncryptionKey".toList (escape (enc m.encryption_info.encryption_key))
    ++ elementLine 4 "MacKey".toList (escape (enc m.encryption_info.mac_key))
    ++ elementLine 4 "InitializationVector".toList (escape (enc m.encryption_info.iv))
    ++ elementLine 4 "Mac".toList (escape (enc m.encryption_info.mac))
    ++ elementLine 4 "ProfileIdentifier".toList (escape m.encryption_info.profile_identifier)
    ++ elementLine 4 "FileDigest".toList (escape (enc m.encryption_info.file_digest))
    ++ elementLine 4 "FileDigestAlgorithm".toList
        (escape m.encryption_info.file_digest_algorithm)
    ++ closeLine 2 "EncryptionInfo".toList
    ++ closeLine 0 "ApplicationInfo".toList)

theorem escapeChar_no_lt (c : Char) :
    (escapeChar c).all (fun d => !(d == '<')) = true := by
  unfold escapeChar
  split_ifs with h1 h2 h3 h4 h5
  · decide
  · decide
  · decide
  · decide
  · decide
  · simp [h2]

theorem escape_contentOK (x : List Char) : contentOK (escape x) = true := by
  unfold contentOK
  induction x with
  | nil => rfl
  | cons c xs ih =>
    rw [show escape (c :: xs) = escapeChar c ++ escape xs from by simp [escape],
      List.all_append, escapeChar_no_lt c, ih]
    rfl

theorem escapeChar_no_lf (c : Char) (h : (c == '\n') = false) :
    (escapeChar c).all (fun d => !(d == '\n')) = true := by
  unfold escapeChar
  split_ifs with h1 h2 h3 h4 h5
  · decide
  · decide
  · decide
  · decide
  · decide
  · simp_all

theorem escape_no_lf (x : List Char) (h : x.all (fun c => !(c == '\n')) = true) :
    (escape x).all (fun d => !(d == '\n')) = true := by
  induction x with
  | nil => rfl
  | cons c xs ih =>
    simp only [List.all_cons, Bool.and_eq_true] at h
    rw [show escape (c :: xs) = escapeChar c ++ escape xs from by simp [escape],
      List.all_append, escapeChar_no_lf c (by simpa using h.1), ih h.2]
    rfl

theorem crlf_cons_lf (s : List Char) : crlf ('\n' :: s) = '\r' :: '\n' :: crlf s := by
  simp [crlf]

theorem crlf_elementLine (ind : Nat) (tag content : List Char)
    (ht : tag.all (fun c => !(c == '\n')) = true)
    (hc : content.all (fun c => !(c == '\n')) = true) :
    crlf (elementLine ind tag content) = renderChunk (.elemC ind tag content) := by
  rw [elementLine, crlf_cons_lf, crlf_of_no_lf]
  · rfl
  · simp [List.all_replicate, List.all_append, ht, hc]

theorem crlf_openLine (ind : Nat) (tag : List Char)
    (ht : tag.all (fun c => !(c == '\n')) = true) :
    crlf (openLine ind tag) = renderChunk (.openC ind tag) := by
  rw [openLine, crlf_cons_lf, crlf_of_no_lf]
  · rfl
  · simp [List.all_replicate, List.all_append, ht]

theorem crlf_closeLine (ind : Nat) (tag : List Char)
    (ht : tag.all (fun c => !(c == '\n')) = true) :
    crlf (closeLine ind tag) = renderChunk (.closeC ind tag) := by
  rw [closeLine, crlf_cons_lf, crlf_of_no_lf]
  · rfl
  · simp [List.all_replicate, List.all_append, ht]

theorem runParse_openChunk (dec : List Char → Option (List Nat)) (st : ParseState)
    (ind : Nat) (tag : List Char) (ts : List XmlToken) :
    runParse dec st (chunkTokens (.openC ind tag) ++ ts) =
      runParse dec { st with current_element := tag } ts := by
  simp [chunkTokens, runParse, parseStep, trimChars_eq_nil, wsRun_isWS]

theorem runParse_closeChunk (dec : List Char → Option (List Nat)) (st : ParseState)
    (ind : Nat) (tag : List Char) (ts : List XmlToken) :
    runParse dec st (chunkTokens (.closeC ind tag) ++ ts) =
      runParse dec { st with current_element := [] } ts := by
  simp [chunkTokens, runParse, parseStep, trimChars_eq_nil, wsRun_isWS]

theorem runParse_elemChunk_nil (dec : List Char → Option (List Nat)) (st : ParseState)
    (ind : Nat) (tag : List Char) (ts : List XmlToken) :
    runParse dec st (chunkTokens (.elemC ind tag []) ++ ts) =
      runParse dec { st with current_element := [] } ts := by
  simp [chunkTokens, runParse, parseStep, trimChars_eq_nil, wsRun_isWS]

theorem runParse_elemChunk (dec : List Char → Option (List Nat)) (st : ParseState)
    (ind : Nat) (tag : List Char) (x : List Char) (ts : List XmlToken)
    (hx : x ≠ [])
    (hh : x.head?.all (fun c => !isWS c) = true)
    (hl : x.getLast?.all (fun c => !isWS c) = true) :
    runParse dec st (chunkTokens (.elemC ind tag (escape x)) ++ ts) =
      match dispatchText dec { st with current_element := tag } x with
      | .ok st2 => runParse dec { st2 with current_element := [] } ts
      | .error e => .error e := by
  have hne : escape x ≠ [] := fun h => hx ((escape_eq_nil_iff x).mp h)
  simp [chunkTokens, hne, runParse, parseStep, trimChars_eq_nil, wsRun_isWS,
    trimChars_escape x hh hl, unescape_escape]

theorem dispatch_Name (dec : List Char → Option (List Nat)) (st : ParseState)
    (x : List Char) (h : st.current_element = "Name".toList) :
    dispatchText dec st x = .ok { st with name := x } := by
  rw [dispatchText, h, if_pos rfl]

theorem dispatch_Size (dec : List Char → Option (List Nat)) (st : ParseState)
    (x : List Char) (n : Nat)
    (h : st.current_element = "UnencryptedContentSize".toList)
    (hx : parseNatChars x = some n) :
    dispatchText dec st x = .ok { st with unencrypted_content_size := n } := by
  rw [dispatchText, h, if_neg (by decide), if_pos rfl, hx]

theorem dispatch_FileName (dec : List Char → Option (List Nat)) (st : ParseState)
    (x : List Char) (h : st.current_element = "FileName".toList) :
    dispatchText dec st x = .ok { st with file_name := x } := by
  rw [dispatchText, h, if_neg (by decide), if_neg (by decide), if_pos rfl]

theorem dispatch_SetupFile (dec : List Char → Option (List Nat)) (st : ParseState)
    (x : List Char) (h : st.current_element = "SetupFile".toList) :
    dispatchText dec st x = .ok { st with setup_file := x } := by
  rw [dispatchText, h, if_neg (by decide), if_neg (by decide), if_neg (by decide),
    if_pos rfl]

theorem dispatch_EncryptionKey (dec : List Char → Option (List Nat)) (st : ParseState)
    (x : List Char) (b : List Nat) (h : st.current_element = "EncryptionKey".toList)
    (hb : dec x = some b) (hlen : b.length = 32) :
    dispatchText dec st x =
      .ok { st with encryption_info := { st.encryption_info with encryption_key := b } } := by
  rw [dispatchText, h, if_neg (by decide), if_neg (by decide), if_neg (by decide),
    if_neg (by decide), if_pos rfl, hb]
  dsimp only
  rw [if_pos hlen]

theorem dispatch_MacKey (dec : List Char → Option (List Nat)) (st : ParseState)
    (x : List Char) (b : List Nat) (h : st.current_element = "MacKey".toList)
    (hb : dec x = some b) (hlen : b.length = 32) :
    dispatchText dec st x =
      .ok { st with encryption_info := { st.encryption_info with mac_key := b } } := by
  rw [dispatchText, h, if_neg (by decide), if_neg (by decide), if_neg (by decide),
    if_neg (by decide), if_neg (by decide), if_pos rfl, hb]
  dsimp only
  rw [if_pos hlen]

theorem dispatch_IV (dec : List Char → Option (List Nat)) (st : ParseState)
    (x : List Char) (b : List Nat)
    (h : st.current_element = "InitializationVector".toList)
    (hb : dec x = some b) (hlen : b.length = 16) :
    dispatchText dec st x =
      .ok { st with encryption_info := { st.encryption_info with iv := b } } := by
  rw [dispatchText, h, if_neg (by decide), if_neg (by decide), if_neg (by decide),
    if_neg (by decide), if_neg (by decide), if_neg (by decide), if_pos rfl, hb]
  dsimp only
  rw [if_pos hlen]

theorem dispatch_Mac (dec : List Char → Option (List Nat)) (st : ParseState)
    (x : List Char) (b : List Nat) (h : st.current_element = "Mac".toList)
    (hb : dec x = some b) (hlen : b.length = 32) :
    dispatchText dec st x =
      .ok { st with encryption_info := { st.encryption_info with mac := b } } := by
  rw [dispatchText, h, if_neg (by decide), if_neg (by decide), if_neg (by decide),
    if_neg (by decide), if_neg (by decide), if_neg (by decide), if_neg (by decide),
    if_pos rfl, hb]
  dsimp only
  rw [if_pos hlen]

theorem dispatch_Profile (dec : List Char → Option (List Nat)) (st : ParseState)
    (x : List Char) (h : st.current_element = "ProfileIdentifier".toList) :
    dispatchText dec st x =
      .ok { st with encryption_info :=
        { st.encryption_info with profile_identifier := x } } := by
  rw [dispatchText, h, if_neg (by decide), if_neg (by decide), if_neg (by decide),
    if_neg (by decide), if_neg (by decide), if_neg (by decide), if_neg (by decide),
    if_neg (by decide), if_pos rfl]

theorem dispatch_FileDigest (dec : List Char → Option (List Nat)) (st : ParseState)
    (x : List Char) (b : List Nat) (h : st.current_element = "FileDigest".toList)
    (hb : dec x = some b) (hlen : b.length = 32) :
    dispatchText dec st x =
      .ok { st with encryption_info := { st.encryption_info with file_digest := b } } := by
  rw [dispatchText, h, if_neg (by decide), if_neg (by decide), if_neg (by decide),
    if_neg (by decide), if_neg (by decide), if_neg (by decide), if_neg (by decide),
    if_neg (by decide), if_neg (by decide), if_pos rfl, hb]
  dsimp only
  rw [if_pos hlen]

theorem dispatch_DigestAlg (dec : List Char → Option (List Nat)) (st : ParseState)
    (x : List Char) (h : st.current_element = "FileDigestAlgorithm".toList) :
    dispatchText dec st x =
      .ok { st with encryption_info :=
        { st.encryption_info with file_digest_algorithm := x } } := by
  rw [dispatchText, h, if_neg (by decide), if_neg (by decide), if_neg (by decide),
    if_neg (by decide), if_neg (by decide), if_neg (by decide), if_neg (by decide),
    if_neg (by decide), if_neg (by decide), if_neg (by decide), if_pos rfl]

theorem all_mono {p q : Char → Bool} (s : List Char)
    (hpq : ∀ c, p c = true → q c = true) (h : s.all p = true) : s.all q = true := by
  rw [List.all_eq_true] at h ⊢
  exact fun x hx => hpq x (h x hx)

theorem head_all_of_all {p : Char → Bool} (s : List Char) (h : s.all p = true) :
    s.head?.all p = true := by
  cases s with
  | nil => rfl
  | cons c xs =>
    simp only [List.all_cons, Bool.and_eq_true] at h
    simp [h.1]

theorem getLast_all_of_all {p : Char → Bool} (s : List Char) (h : s.all p = true) :
    s.getLast?.all p = true := by
  rw [← List.head?_reverse]
  exact head_all_of_all _ (by rwa [List.all_reverse])

theorem digit_not_ws (c : Char) (h : (48 ≤ c.toNat && c.toNat ≤ 57) = true) :
    (!isWS c) = true := by
  simp only [Bool.and_eq_true, decide_eq_true_eq] at h
  simp only [isWS, Bool.not_eq_true', Bool.or_eq_false_iff, decide_eq_false_iff_not]
  refine ⟨⟨⟨?_, ?_⟩, ?_⟩, ?_⟩ <;> (rintro rfl; simp_all)

theorem digit_not_lf (c : Char) (h : (48 ≤ c.toNat && c.toNat ≤ 57) = true) :
    (!(c == '\n')) = true := by
  simp only [Bool.and_eq_true, decide_eq_true_eq] at h
  simp only [Bool.not_eq_true', beq_eq_false_iff_ne, Ne]
  rintro rfl
  simp_all

theorem natChars_ne_nil (n : Nat) : natChars n ≠ [] :=
  (natCharsAux_spec (n + 1) n (Nat.lt_succ_self n)).1

theorem natChars_digits (n : Nat) :
    (natChars n).all (fun c => 48 ≤ c.toNat && c.toNat ≤ 57) = true :=
  (natCharsAux_spec (n + 1) n (Nat.lt_succ_self n)).2.1

theorem natChars_head_ws (n : Nat) :
    (natChars n).head?.all (fun c => !isWS c) = true :=
  head_all_of_all _ (all_mono _ digit_not_ws (natChars_digits n))

theorem natChars_last_ws (n : Nat) :
    (natChars n).getLast?.all (fun c => !isWS c) = true :=
  getLast_all_of_all _ (all_mono _ digit_not_ws (natChars_digits n))

theorem natChars_no_lf (n : Nat) :
    (natChars n).all (fun c => !(c == '\n')) = true :=
  all_mono _ digit_not_lf (natChars_digits n)

theorem textSafeB_props (s : List Char) (h : textSafeB s = true) :
    s.head?.all (fun c => !isWS c) = true ∧
      s.getLast?.all (fun c => !isWS c) = true ∧
      s.all (fun c => !(c == '\n')) = true := by
  simp only [textSafeB, Bool.and_eq_true] at h
  exact ⟨h.1.1, h.1.2, h.2⟩

def detectionChunks (enc : List Nat → List Char) (m : DetectionMetadata) : List Chunk :=
  [ .elemC 2 "Name".toList (escape m.name),
    .elemC 2 "UnencryptedContentSize".toList
      (escape (natChars m.unencrypted_content_size)),
    .elemC 2 "FileName".toList (escape m.file_name),
    .elemC 2 "SetupFile".toList (escape m.setup_file),
    .openC 2 "EncryptionInfo".toList,
    .elemC 4 "EncryptionKey".toList (escape (enc m.encryption_info.encryption_key)),
    .elemC 4 "MacKey".toList (escape (enc m.encryption_info.mac_key)),
    .elemC 4 "InitializationVector".toList (escape (enc m.encryption_info.iv)),
    .elemC 4 "Mac".toList (escape (enc m.encryption_info.mac)),
    .elemC 4 "ProfileIdentifier".toList (escape m.encryption_info.profile_identifier),
    .elemC 4 "FileDigest".toList (escape (enc m.encryption_info.file_digest)),
    .elemC 4 "FileDigestAlgorithm".toList
      (escape m.encryption_info.file_digest_algorithm),
    .closeC 2 "EncryptionInfo".toList,
    .closeC 0 "ApplicationInfo".toList ]

theorem generate_eq_chunks (enc : List Nat → List Char) (m : DetectionMetadata)
    (h1 : m.name.all (fun c => !(c == '\n')) = true)
    (h3 : m.file_name.all (fun c => !(c == '\n')) = true)
    (h4 : m.setup_file.all (fun c => !(c == '\n')) = true)
    (hprof : m.encryption_info.profile_identifier.all (fun c => !(c == '\n')) = true)
    (halg : m.encryption_info.file_digest_algorithm.all (fun c => !(c == '\n')) = true)
    (hk : (enc m.encryption_info.encryption_key).all (fun c => !(c == '\n')) = true)
    (hmk : (enc m.encryption_info.mac_key).all (fun c => !(c == '\n')) = true)
    (hivLF : (enc m.encryption_info.iv).all (fun c => !(c == '\n')) = true)
    (hmacLF : (enc m.encryption_info.mac).all (fun c => !(c == '\n')) = true)
    (hdgLF : (enc m.encryption_info.file_digest).all (fun c => !(c == '\n')) = true) :
    generate_detection_xml enc m =
      rootStartTag ++ ((detectionChunks enc m).map renderChunk).flatten := by
  rw [generate_detection_xml]
  simp only [crlf_append]
  rw [crlf_of_no_lf rootStartTag (by decide),
    crlf_elementLine 2 _ _ (by decide) (escape_no_lf _ h1),
    crlf_elementLine 2 _ _ (by decide) (escape_no_lf _ (natChars_no_lf _)),
    crlf_elementLine 2 _ _ (by decide) (escape_no_lf _ h3),
    crlf_elementLine 2 _ _ (by decide) (escape_no_lf _ h4),
    crlf_openLine 2 _ (by decide),
    crlf_elementLine 4 _ _ (by decide) (escape_no_lf _ hk),
    crlf_elementLine 4 _ _ (by decide) (escape_no_lf _ hmk),
    crlf_elementLine 4 _ _ (by decide) (escape_no_lf _ hivLF),
    crlf_elementLine 4 _ _ (by decide) (escape_no_lf _ hmacLF),
    crlf_elementLine 4 _ _ (by decide) (escape_no_lf _ hprof),
    crlf_elementLine 4 _ _ (by decide) (escape_no_lf _ hdgLF),
    crlf_elementLine 4 _ _ (by decide) (escape_no_lf _ halg),
    crlf_closeLine 2 _ (by decide),
    crlf_closeLine 0 _ (by decide)]
  simp only [detectionChunks, List.map_cons, List.map_nil, List.flatten_cons,
    List.flatten_nil, List.append_nil, List.append_assoc]

theorem tokenize_root_chunks (cs : List Chunk) (hok : ∀ c ∈ cs, chunkOK c = true) :
    tokenize (rootStartTag ++ (cs.map renderChunk).flatten) =
      XmlToken.tStart "ApplicationInfo".toList :: (cs.map chunkTokens).flatten := by
  rw [tokenize]
  rw [show rootStartTag ++ (cs.map renderChunk).flatten =
      '<' :: (rootBodyChars ++ '>' :: (cs.map renderChunk).flatten) from by
    simp [rootStartTag, List.append_assoc]]
  rw [show ('<' :: (rootBodyChars ++ '>' :: (cs.map renderChunk).flatten)).length =
      (rootBodyChars.length + 1 + (cs.map renderChunk).flatten.length) + 1 from by
    simp
    omega]
  rw [tokenizeAux_start _ rootBodyChars _ (by decide) (by decide) (by decide)]
  rw [show rootBodyChars.takeWhile (fun d => !(d == ' ')) =
      "ApplicationInfo".toList from by decide]
  rw [tokenizeAux_chunks cs hok _ (by omega)]

theorem runParse_tStart (dec : List Char → Option (List Nat)) (st : ParseState)
    (nm : List Char) (ts : List XmlToken) :
    runParse dec st (XmlToken.tStart nm :: ts) =
      runParse dec { st with current_element := nm } ts := by
  simp [runParse, parseStep]

theorem detectionChunks_ok (enc : List Nat → List Char) (m : DetectionMetadata) :
    ∀ c ∈ detectionChunks enc m, chunkOK c = true := by
  intro c hc
  simp only [detectionChunks, List.mem_cons, List.not_mem_nil, or_false] at hc
  rcases hc with rfl|rfl|rfl|rfl|rfl|rfl|rfl|rfl|rfl|rfl|rfl|rfl|rfl|rfl
  · rw [chunkOK, escape_contentOK, Bool.and_true]; decide
  · rw [chunkOK, escape_contentOK, Bool.and_true]; decide
  · rw [chunkOK, escape_contentOK, Bool.and_true]; decide
  · rw [chunkOK, escape_contentOK, Bool.and_true]; decide
  · rw [chunkOK]; decide
  · rw [chunkOK, escape_contentOK, Bool.and_true]; decide
  · rw [chunkOK, escape_contentOK, Bool.and_true]; decide
  · rw [chunkOK, escape_contentOK, Bool.and_true]; decide
  · rw [chunkOK, escape_contentOK, Bool.and_true]; decide
  · rw [chunkOK, escape_contentOK, Bool.and_true]; decide
  · rw [chunkOK, escape_contentOK, Bool.and_true]; decide
  · rw [chunkOK, escape_contentOK, Bool.and_true]; decide
  · rw [chunkOK]; decide
  · rw [chunkOK]; decide

theorem runParse_nameChunk (dec : List Char → Option (List Nat)) (st : ParseState)
    (x : List Char) (ts : List XmlToken) (hx : x ≠ [])
    (hh : x.head?.all (fun c => !isWS c) = true)
    (hl : x.getLast?.all (fun c => !isWS c) = true) :
    runParse dec st (chunkTokens (.elemC 2 "Name".toList (escape x)) ++ ts) =
      runParse dec { st with current_element := [], name := x } ts := by
  rw [runParse_elemChunk dec st 2 _ x ts hx hh hl, dispatch_Name dec _ x rfl]

theorem runParse_sizeChunk (dec : List Char → Option (List Nat)) (st : ParseState)
    (n : Nat) (ts : List XmlToken) (hn : n < 2 ^ 64) :
    runParse dec st
        (chunkTokens (.elemC 2 "UnencryptedContentSize".toList
          (escape (natChars n))) ++ ts) =
      runParse dec { st with current_element := [], unencrypted_content_size := n } ts := by
  rw [runParse_elemChunk dec st 2 _ (natChars n) ts (natChars_ne_nil n)
      (natChars_head_ws n) (natChars_last_ws n),
    dispatch_Size dec _ (natChars n) n rfl (parseNat_natChars n hn)]

theorem runParse_fileNameChunk (dec : List Char → Option (List Nat)) (st : ParseState)
    (x : List Char) (ts : List XmlToken) (hx : x ≠ [])
    (hh : x.head?.all (fun c => !isWS c) = true)
    (hl : x.getLast?.all (fun c => !isWS c) = true) :
    runParse dec st (chunkTokens (.elemC 2 "FileName".toList (escape x)) ++ ts) =
      runParse dec { st with current_element := [], file_name := x } ts := by
  rw [runParse_elemChunk dec st 2 _ x ts hx hh hl, dispatch_FileName dec _ x rfl]

theorem runParse_setupChunk (dec : List Char → Option (List Nat)) (st : ParseState)
    (x : List Char) (ts : List XmlToken) (hx : x ≠ [])
    (hh : x.head?.all (fun c => !isWS c) = true)
    (hl : x.getLast?.all (fun c => !isWS c) = true) :
    runParse dec st (chunkTokens (.elemC 2 "SetupFile".toList (escape x)) ++ ts) =
      runParse dec { st with current_element := [], setup_file := x } ts := by
  rw [runParse_elemChunk dec st 2 _ x ts hx hh hl, dispatch_SetupFile dec _ x rfl]

theorem runParse_keyChunk (dec : List Char → Option (List Nat)) (st : ParseState)
    (enc : List Nat → List Char) (b : List Nat) (ts : List XmlToken)
    (hne : enc b ≠ []) (hsafe : textSafeB (enc b) = true)
    (hb : dec (enc b) = some b) (hlen : b.length = 32) :
    runParse dec st
        (chunkTokens (.elemC 4 "EncryptionKey".toList (escape (enc b))) ++ ts) =
      runParse dec
        { st with
          current_element := ([] : List Char)
          encryption_info := { st.encryption_info with encryption_key := b } } ts := by
  obtain ⟨hh, hl, _⟩ := textSafeB_props _ hsafe
  rw [runParse_elemChunk dec st 4 _ (enc b) ts hne hh hl,
    dispatch_EncryptionKey dec _ (enc b) b rfl hb hlen]

theorem runParse_macKeyChunk (dec : List Char → Option (List Nat)) (st : ParseState)
    (enc : List Nat → List Char) (b : List Nat) (ts : List XmlToken)
    (hne : enc b ≠ []) (hsafe : textSafeB (enc b) = true)
    (hb : dec (enc b) = some b) (hlen : b.length = 32) :
    runParse dec st (chunkTokens (.elemC 4 "MacKey".toList (escape (enc b))) ++ ts) =
      runParse dec
        { st with
          current_element := ([] : List Char)
          encryption_info := { st.encryption_info with mac_key := b } } ts := by
  obtain ⟨hh, hl, _⟩ := textSafeB_props _ hsafe
  rw [runParse_elemChunk dec st 4 _ (enc b) ts hne hh hl,
    dispatch_MacKey dec _ (enc b) b rfl hb hlen]

theorem runParse_ivChunk (dec : List Char → Option (List Nat)) (st : ParseState)
    (enc : List Nat → List Char) (b : List Nat) (ts : List XmlToken)
    (hne : enc b ≠ []) (hsafe : textSafeB (enc b) = true)
    (hb : dec (enc b) = some b) (hlen : b.length = 16) :
    runParse dec st
        (chunkTokens (.elemC 4 "InitializationVector".toList (escape (enc b))) ++ ts) =
      runParse dec
        { st with
          current_element := ([] : List Char)
          encryption_info := { st.encryption_info with iv := b } } ts := by
  obtain ⟨hh, hl, _⟩ := textSafeB_props _ hsafe
  rw [runParse_elemChunk dec st 4 _ (enc b) ts hne hh hl,
    dispatch_IV dec _ (enc b) b rfl hb hlen]

theorem runParse_macChunk (dec : List Char → Option (List Nat)) (st : ParseState)
    (enc : List Nat → List Char) (b : List Nat) (ts : List XmlToken)
    (hne : enc b ≠ []) (hsafe : textSafeB (enc b) = true)
    (hb : dec (enc b) = some b) (hlen : b.length = 32) :
    runParse dec st (chunkTokens (.elemC 4 "Mac".toList (escape (enc b))) ++ ts) =
      runParse dec
        { st with
          current_element := ([] : List Char)
          encryption_info := { st.encryption_info with mac := b } } ts := by
  obtain ⟨hh, hl, _⟩ := textSafeB_props _ hsafe
  rw [runParse_elemChunk dec st 4 _ (enc b) ts hne hh hl,
    dispatch_Mac dec _ (enc b) b rfl hb hlen]

theorem runParse_profileChunk (dec : List Char → Option (List Nat)) (st : ParseState)
    (x : List Char) (ts : List XmlToken) (hx : x ≠ [])
    (hh : x.head?.all (fun c => !isWS c) = true)
    (hl : x.getLast?.all (fun c => !isWS c) = true) :
    runParse dec st
        (chunkTokens (.elemC 4 "ProfileIdentifier".toList (escape x)) ++ ts) =
      runParse dec
        { st with
          current_element := ([] : List Char)
          encryption_info := { st.encryption_info with profile_identifier := x } } ts := by
  rw [runParse_elemChunk dec st 4 _ x ts hx hh hl, dispatch_Profile dec _ x rfl]

theorem runParse_digestChunk (dec : List Char → Option (List Nat)) (st : ParseState)
    (enc : List Nat → List Char) (b : List Nat) (ts : List XmlToken)
    (hne : enc b ≠ []) (hsafe : textSafeB (enc b) = true)
    (hb : dec (enc b) = some b) (hlen : b.length = 32) :
    runParse dec st
        (chunkTokens (.elemC 4 "FileDigest".toList (escape (enc b))) ++ ts) =
      runParse dec
        { st with
          current_element := ([] : List Char)
          encryption_info := { st.encryption_info with file_digest := b } } ts := by
  obtain ⟨hh, hl, _⟩ := textSafeB_props _ hsafe
  rw [runParse_elemChunk dec st 4 _ (enc b) ts hne hh hl,
    dispatch_FileDigest dec _ (enc b) b rfl hb hlen]

theorem runParse_algChunk (dec : List Char → Option (List Nat)) (st : ParseState)
    (x : List Char) (ts : List XmlToken) (hx : x ≠ [])
    (hh : x.head?.all (fun c => !isWS c) = true)
    (hl : x.getLast?.all (fun c => !isWS c) = true) :
    runParse dec st
        (chunkTokens (.elemC 4 "FileDigestAlgorithm".toList (escape x)) ++ ts) =
      runParse dec
        { st with
          current_element := ([] : List Char)
          encryption_info := { st.encryption_info with file_digest_algorithm := x } } ts := by
  rw [runParse_elemChunk dec st 4 _ x ts hx hh hl, dispatch_DigestAlg dec _ x rfl]

/-- C8 (amended): for every `DetectionMetadata` whose secrets have the
fixed byte lengths (32-byte AES key, 32-byte MAC key, 16-byte IV,
32-byte MAC, 32-byte digest), whose size fits in a `u64`, and whose
text fields are XML-text-safe — `name`, `setup_file`,
`profile_identifier` and `file_digest_algorithm` non-empty, every
string field free of leading/trailing whitespace and of newlines
(`textSafeB`) — `parse_detection_xml` applied to
`generate_detection_xml m` (with any base64 encode/decode pair that
inverts on the five secrets and produces non-empty whitespace-free
text, as the real alphabet does) succeeds and returns `m` in every
field. -/
theorem parse_generate_roundtrip
    (enc : List Nat → List Char) (dec : List Char → Option (List Nat))
    (m : DetectionMetadata)
    (hdecKey : dec (enc m.encryption_info.encryption_key) =
      some m.encryption_info.encryption_key)
    (hdecMacKey : dec (enc m.encryption_info.mac_key) = some m.encryption_info.mac_key)
    (hdecIv : dec (enc m.encryption_info.iv) = some m.encryption_info.iv)
    (hdecMac : dec (enc m.encryption_info.mac) = some m.encryption_info.mac)
    (hdecDigest : dec (enc m.encryption_info.file_digest) =
      some m.encryption_info.file_digest)
    (hsafeKey : textSafeB (enc m.encryption_info.encryption_key) = true)
    (hsafeMacKey : textSafeB (enc m.encryption_info.mac_key) = true)
    (hsafeIv : textSafeB (enc m.encryption_info.iv) = true)
    (hsafeMac : textSafeB (enc m.encryption_info.mac) = true)
    (hsafeDigest : textSafeB (enc m.encryption_info.file_digest) = true)
    (hneKey : enc m.encryption_info.encryption_key ≠ [])
    (hneMacKey : enc m.encryption_info.mac_key ≠ [])
    (hneIv : enc m.encryption_info.iv ≠ [])
    (hneMac : enc m.encryption_info.mac ≠ [])
    (hneDigest : enc m.encryption_info.file_digest ≠ [])
    (hkey : m.encryption_info.encryption_key.length = 32)
    (hmackey : m.encryption_info.mac_key.length = 32)
    (hiv : m.encryption_info.iv.length = 16)
    (hmac : m.encryption_info.mac.length = 32)
    (hdigest : m.encryption_info.file_digest.length = 32)
    (hsize : m.unencrypted_content_size < 2 ^ 64)
    (hname : m.name ≠ []) (hnameSafe : textSafeB m.name = true)
    (hsetup : m.setup_file ≠ []) (hsetupSafe : textSafeB m.setup_file = true)
    (hfileSafe : textSafeB m.file_name = true)
    (hprof : m.encryption_info.profile_identifier ≠ [])
    (hprofSafe : textSafeB m.encryption_info.profile_identifier = true)
    (halg : m.encryption_info.file_digest_algorithm ≠ [])
    (halgSafe : textSafeB m.encryption_info.file_digest_algorithm = true) :
    parse_detection_xml dec (generate_detection_xml enc m) = .ok m := by
  obtain ⟨mn, msize, mfile, msetup, minfo⟩ := m
  obtain ⟨mkey, mmkey, miv, mmac, mdg, mpr, mal⟩ := minfo
  obtain ⟨hh1, hl1, hn1⟩ := textSafeB_props _ hnameSafe
  obtain ⟨hh3, hl3, hn3⟩ := textSafeB_props _ hfileSafe
  obtain ⟨hh4, hl4, hn4⟩ := textSafeB_props _ hsetupSafe
  obtain ⟨hhp, hlp, hnp⟩ := textSafeB_props _ hprofSafe
  obtain ⟨hha, hla, hna⟩ := textSafeB_props _ halgSafe
  rw [parse_detection_xml,
    generate_eq_chunks enc _ hn1 hn3 hn4 hnp hna
      (textSafeB_props _ hsafeKey).2.2 (textSafeB_props _ hsafeMacKey).2.2
      (textSafeB_props _ hsafeIv).2.2 (textSafeB_props _ hsafeMac).2.2
      (textSafeB_props _ hsafeDigest).2.2,
    tokenize_root_chunks _ (detectionChunks_ok enc _)]
  simp only [detectionChunks, List.map_cons, List.map_nil, List.flatten_cons,
    List.flatten_nil]
  rw [runParse_tStart,
    runParse_nameChunk dec _ mn _ hname hh1 hl1,
    runParse_sizeChunk dec _ msize _ hsize]
  by_cases hfn : mfile = []
  · subst hfn
    rw [show escape ([] : List Char) = [] from rfl, runParse_elemChunk_nil,
      runParse_setupChunk dec _ msetup _ hsetup hh4 hl4,
      runParse_openChunk,
      runParse_keyChunk dec _ enc mkey _ hneKey hsafeKey hdecKey hkey,
      runParse_macKeyChunk dec _ enc mmkey _ hneMacKey hsafeMacKey hdecMacKey hmackey,
      runParse_ivChunk dec _ enc miv _ hneIv hsafeIv hdecIv hiv,
      runParse_macChunk dec _ enc mmac _ hneMac hsafeMac hdecMac hmac,
      runParse_profileChunk dec _ mpr _ hprof hhp hlp,
      runParse_digestChunk dec _ enc mdg _ hneDigest hsafeDigest hdecDigest hdigest,
      runParse_algChunk dec _ mal _ halg hha hla,
      runParse_closeChunk, runParse_closeChunk]
    simp only [runParse]
    rw [if_neg hname, if_neg hsetup]
    rfl
  · rw [runParse_fileNameChunk dec _ mfile _ hfn hh3 hl3,
      runParse_setupChunk dec _ msetup _ hsetup hh4 hl4,
      runParse_openChunk,
      runParse_keyChunk dec _ enc mkey _ hneKey hsafeKey hdecKey hkey,
      runParse_macKeyChunk dec _ enc mmkey _ hneMacKey hsafeMacKey hdecMacKey hmackey,
      runParse_ivChunk dec _ enc miv _ hneIv hsafeIv hdecIv hiv,
      runParse_macChunk dec _ enc mmac _ hneMac hsafeMac hdecMac hmac,
      runParse_profileChunk dec _ mpr _ hprof hhp hlp,
      runParse_digestChunk dec _ enc mdg _ hneDigest hsafeDigest hdecDigest hdigest,
      runParse_algChunk dec _ mal _ halg hha hla,
      runParse_closeChunk, runParse_closeChunk]
    simp only [runParse]
    rw [if_neg hname, if_neg hsetup]

def sizeEnc (b : List Nat) : List Char := natChars b.length

def sizeDec (s : List Char) : Option (List Nat) :=
  (parseNatChars s).map (fun n => List.replicate n 0)

def cexM : DetectionMetadata :=
  { name := [], unencrypted_content_size := 0, file_name := [],
    setup_file := ['s'], encryption_info := EncryptionInfo.new }

def wM : DetectionMetadata :=
  { name := ['a'], unencrypted_content_size := 5, file_name := [],
    setup_file := ['s'],
    encryption_info :=
      { encryption_key := List.replicate 32 0
        mac_key := List.replicate 32 0
        iv := List.replicate 16 0
        mac := List.replicate 32 0
        file_digest := List.replicate 32 0
        profile_identifier := ['p']
        file_digest_algorithm := ['q'] } }

set_option maxRecDepth 40000 in
/-- C8 counterexample: a `DetectionMetadata` whose five secrets have the
claimed fixed lengths (32/32/16/32/32) but whose `name` is empty fails
the round trip: `parse_detection_xml` rejects the generated document
with `XmlError "Missing Name element"` instead of returning the value,
so the claim does not hold for every fixed-secret-length `M`. -/
theorem detection_xml_roundtrip_fails_empty_name :
    cexM.encryption_info.encryption_key.length = 32 ∧
    cexM.encryption_info.mac_key.length = 32 ∧
    cexM.encryption_info.iv.length = 16 ∧
    cexM.encryption_info.mac.length = 32 ∧
    cexM.encryption_info.file_digest.length = 32 ∧
    parse_detection_xml sizeDec (generate_detection_xml sizeEnc cexM) =
      .error (.XmlError "Missing Name element") :=
  ⟨rfl, rfl, rfl, rfl, rfl, rfl⟩

/-- Witness for the amended C8 at a concrete metadata value and a
concrete codec (`sizeEnc`/`sizeDec`, which invert on the zeroed
secrets), every hypothesis discharged by `decide`. -/
theorem detection_xml_roundtrip_witness :
    parse_detection_xml sizeDec (generate_detection_xml sizeEnc wM) = .ok wM :=
  parse_generate_roundtrip sizeEnc sizeDec wM (by decide) (by decide) (by decide)
    (by decide) (by decide) (by decide) (by decide) (by decide) (by decide)
    (by decide) (by decide) (by decide) (by decide) (by decide) (by decide)
    (by decide) (by decide) (by decide) (by decide) (by decide) (by decide)
    (by decide) (by decide) (by decide) (by decide) (by decide) (by decide)
    (by decide) (by decide) (by decide)

end Wrapper
